import Mathlib

set_option maxRecDepth 4000

/-! Shallow embedding of the `smartcube_ble` subsystem of the ble-smartcube
repository (files `helpers/cube_math.py`, `helpers/state.py`, `cubes/giiker.py`,
`cubes/gancube.py`, `cubes/qiyicube.py`, `registry.py`, `base.py`), together
with proofs about the embedded operations.  Python byte strings are modelled as
`List Nat`, Python text strings as `List Char`, machine arithmetic with
explicit masking as in the source.  A Python function that can raise on the
inputs a claim ranges over is modelled with `Option`, `none` standing for the
raised exception. -/

namespace SmartCube

/-! ## cube_math.py: CubieCube -/

/-- Corner facelet table `CubieCube.c_facelet`. -/
def c_facelet : List (List Nat) :=
  [[8, 9, 20], [6, 18, 38], [0, 36, 47], [2, 45, 11],
   [29, 26, 15], [27, 44, 24], [33, 53, 42], [35, 17, 51]]

/-- Edge facelet table `CubieCube.e_facelet`. -/
def e_facelet : List (List Nat) :=
  [[5, 10], [7, 19], [3, 37], [1, 46], [32, 16], [28, 25],
   [30, 43], [34, 52], [23, 12], [21, 41], [50, 39], [48, 14]]

/-- Center facelet table `CubieCube.ct_facelet`. -/
def ct_facelet : List Nat := [4, 13, 22, 31, 40, 49]

/-- Table lookup `c_facelet[i][m]` (out-of-range indices default, as the
embedding only reads in-range entries). -/
def cf (i m : Nat) : Nat := (c_facelet.getD i []).getD m 0

/-- Table lookup `e_facelet[i][m]`. -/
def ef (i m : Nat) : Nat := (e_facelet.getD i []).getD m 0

/-- Cubie representation: `ca` packs corner permutation (low 3 bits) and
orientation (bits 3-4); `ea` packs edge permutation (bits 1-4) and
orientation (bit 0), exactly as in `cube_math.py`. -/
structure CubieCube where
  ca : List Nat
  ea : List Nat
deriving DecidableEq, Repr

/-- The `CubieCube()` constructor: the solved state. -/
def CubieCube.mk0 : CubieCube :=
  ⟨[0, 1, 2, 3, 4, 5, 6, 7], [0, 2, 4, 6, 8, 10, 12, 14, 16, 18, 20, 22]⟩

/-- `CubieCube.corn_mult`: corner part of the group multiplication. -/
def corn_mult (a b : CubieCube) : List Nat :=
  (List.range 8).map fun corn =>
    let bc := b.ca.getD corn 0
    let ori := ((a.ca.getD (bc &&& 7) 0) >>> 3 + bc >>> 3) % 3
    ((a.ca.getD (bc &&& 7) 0) &&& 7) ||| (ori <<< 3)

/-- `CubieCube.edge_mult`: edge part of the group multiplication. -/
def edge_mult (a b : CubieCube) : List Nat :=
  (List.range 12).map fun ed =>
    let be := b.ea.getD ed 0
    (a.ea.getD (be >>> 1) 0) ^^^ (be &&& 1)

/-- `CubieCube.cube_mult`. -/
def cube_mult (a b : CubieCube) : CubieCube :=
  ⟨corn_mult a b, edge_mult a b⟩

/-- The sequence of `(position, value)` writes performed by the corner loop of
`CubieCube.to_perm`, in source order. -/
def corner_writes (c : CubieCube) : List (Nat × Nat) :=
  (List.range 8).flatMap fun cn =>
    let corner := (c.ca.getD cn 0) &&& 7
    let ori := (c.ca.getD cn 0) >>> 3
    (List.range 3).map fun n => (cf cn ((n + ori) % 3), cf corner n)

/-- The sequence of `(position, value)` writes performed by the edge loop of
`CubieCube.to_perm`, in source order. -/
def edge_writes (c : CubieCube) : List (Nat × Nat) :=
  (List.range 12).flatMap fun e =>
    let edge := (c.ea.getD e 0) >>> 1
    let ori := (c.ea.getD e 0) &&& 1
    (List.range 2).map fun n => (ef e ((n + ori) % 2), ef edge n)

/-- `CubieCube.to_perm`: start from the identity permutation of the 54
facelets and perform the corner writes then the edge writes. -/
def to_perm (c : CubieCube) : List Nat :=
  (corner_writes c ++ edge_writes c).foldl (fun f w => f.set w.1 w.2) (List.range 54)

/-- The face letters `"URFDLB"` of `to_facelet`. -/
def face_chars : List Char := ['U', 'R', 'F', 'D', 'L', 'B']

/-- `CubieCube.to_facelet`: the facelet string `"URFDLB"[perm[i] // 9]`. -/
def to_facelet (c : CubieCube) : List Char :=
  (to_perm c).map fun p => face_chars.getD (p / 9) '?'

/-- The color-index list `f` and BCD counter `count` built by the first loop
of `CubieCube.from_facelet`; `none` models the early `return -1` taken when a
character does not occur among the six center characters. -/
def facelet_colors (centers facelet : List Char) : Option (List Nat × Nat) :=
  (List.range 54).foldl
    (fun acc i =>
      acc.bind fun fc =>
        match centers.findIdx? (fun ch => ch == facelet.getD i ' ') with
        | none => none
        | some idx => some (fc.1 ++ [idx], fc.2 + (1 <<< (idx <<< 2))))
    (some ([], 0))

/-- The corner loop of `from_facelet`: for each slot, locate the U/D sticker,
read the two remaining colors and search the corner table; a slot whose search
fails keeps its previous `ca` entry, as in the source. -/
def corner_decode (f : List Nat) (ca0 : List Nat) : List Nat :=
  (List.range 8).foldl
    (fun ca i =>
      let ori := (((List.range 3).find? fun o =>
        f.getD (cf i o) 0 == 0 || f.getD (cf i o) 0 == 3)).getD 3
      let col1 := f.getD (cf i ((ori + 1) % 3)) 0
      let col2 := f.getD (cf i ((ori + 2) % 3)) 0
      match (List.range 8).find? (fun j => col1 == cf j 1 / 9 && col2 == cf j 2 / 9) with
      | some j => ca.set i (j ||| ((ori % 3) <<< 3))
      | none => ca)
    ca0

/-- The edge loop of `from_facelet`: the first matching table row wins, with
the direct-orientation test tried before the flipped one, as in the source. -/
def edge_decode (f : List Nat) (ea0 : List Nat) : List Nat :=
  (List.range 12).foldl
    (fun ea i =>
      match (List.range 12).find? (fun j =>
        (f.getD (ef i 0) 0 == ef j 0 / 9 && f.getD (ef i 1) 0 == ef j 1 / 9) ||
        (f.getD (ef i 0) 0 == ef j 1 / 9 && f.getD (ef i 1) 0 == ef j 0 / 9)) with
      | some j =>
          if f.getD (ef i 0) 0 == ef j 0 / 9 && f.getD (ef i 1) 0 == ef j 1 / 9 then
            ea.set i (j <<< 1)
          else
            ea.set i ((j <<< 1) ||| 1)
      | none => ea)
    ea0

/-- `CubieCube.from_facelet`, decoding into the cube `c` (the method mutates
`self`); `none` models the `-1` sentinel return. -/
def from_facelet (c : CubieCube) (facelet : List Char) : Option CubieCube :=
  match facelet_colors [facelet.getD 4 ' ', facelet.getD 13 ' ', facelet.getD 22 ' ',
      facelet.getD 31 ' ', facelet.getD 40 ' ', facelet.getD 49 ' '] facelet with
  | none => none
  | some (f, count) =>
    if count ≠ 0x999999 then none
    else some ⟨corner_decode f c.ca, edge_decode f c.ea⟩

/-- `_init_move_cube`: the six generator quarter turns, then powers by
repeated multiplication. -/
def init_move_cube : List CubieCube :=
  let mc := List.replicate 18 CubieCube.mk0
  let mc := mc.set 0 ⟨[3, 0, 1, 2, 4, 5, 6, 7], [6, 0, 2, 4, 8, 10, 12, 14, 16, 18, 20, 22]⟩
  let mc := mc.set 3 ⟨[20, 1, 2, 8, 15, 5, 6, 19], [16, 2, 4, 6, 22, 10, 12, 14, 8, 18, 20, 0]⟩
  let mc := mc.set 6 ⟨[9, 21, 2, 3, 16, 12, 6, 7], [0, 19, 4, 6, 8, 17, 12, 14, 3, 11, 20, 22]⟩
  let mc := mc.set 9 ⟨[0, 1, 2, 3, 5, 6, 7, 4], [0, 2, 4, 6, 10, 12, 14, 8, 16, 18, 20, 22]⟩
  let mc := mc.set 12 ⟨[0, 10, 22, 3, 4, 17, 13, 7], [0, 2, 20, 6, 8, 10, 18, 14, 16, 4, 12, 22]⟩
  let mc := mc.set 15 ⟨[0, 1, 11, 23, 4, 5, 18, 14], [0, 2, 4, 23, 8, 10, 12, 21, 16, 18, 7, 15]⟩
  (List.range 6).foldl
    (fun mc a =>
      (List.range 2).foldl
        (fun mc power =>
          mc.set (a * 3 + power + 1)
            (cube_mult (mc.getD (a * 3 + power) CubieCube.mk0) (mc.getD (a * 3) CubieCube.mk0)))
        mc)
    mc

/-- `CubieCube.move_cube`, the 18 precomputed elementary moves. -/
def move_cube : List CubieCube := init_move_cube

/-- `CubieCube.apply_move_index`. -/
def apply_move_index (c : CubieCube) (k : Nat) : CubieCube :=
  cube_mult c (move_cube.getD k CubieCube.mk0)

/-- The state reached from the solved state by a move-index sequence. -/
def reach (ms : List Nat) : CubieCube := ms.foldl apply_move_index CubieCube.mk0

/-- The solved facelet string: 9 copies of each face letter in face order. -/
def solved_facelet : List Char := face_chars.flatMap (List.replicate 9)

/-! ## models.py and helpers/state.py -/

/-- The apostrophe character used as the reverse-turn suffix in move notation
strings such as `"U'"`. -/
def primeChar : Char := Char.ofNat 39

/-- `CubeData` from models.py.  `last_update` records whether `time.time()`
has been stored (the wall-clock value itself is not modelled). -/
structure CubeData where
  battery_level : Option Nat := none
  is_solved : Bool := false
  face_states : List (List Char × Bool) := []
  last_move : Option (List Char) := none
  last_raw : Option (List Nat) := none
  last_decrypted : Option (List Nat) := none
  state_string : Option (List Char) := none
  last_update : Bool := false
deriving DecidableEq, Repr

/-- `COLOR_FACE_MAPPING` from helpers/state.py. -/
def color_face_mapping : List (List Char × Char) :=
  [("blue".toList, 'B'), ("yellow".toList, 'D'), ("orange".toList, 'L'),
   ("white".toList, 'U'), ("red".toList, 'R'), ("green".toList, 'F')]

/-- `FACE_TILE_INDICES` from helpers/state.py. -/
def face_tile_indices : List (Char × List Nat) :=
  [('U', List.range' 0 9), ('R', List.range' 9 9), ('F', List.range' 18 9),
   ('D', List.range' 27 9), ('L', List.range' 36 9), ('B', List.range' 45 9)]

/-- The dictionary lookup `FACE_TILE_INDICES[face_letter]`. -/
def tiles_of (letter : Char) : List Nat :=
  (((face_tile_indices.find? fun p => p.1 == letter)).map Prod.snd).getD []

/-- The dictionary lookup `COLOR_FACE_MAPPING[color_name]` (all names used by
the embedding are present, so the default is never taken). -/
def face_of_color (name : List Char) : Char :=
  (((color_face_mapping.find? fun p => p.1 == name)).map Prod.snd).getD '?'

/-- Python `str.capitalize`. -/
def capitalize : List Char → List Char
  | [] => []
  | c :: rest => c.toUpper :: rest.map Char.toLower

/-- `build_face_states` from helpers/state.py. -/
def build_face_states (state_string : List Char) : List (List Char × Bool) × Bool :=
  if state_string.isEmpty || state_string.length < 54 then ([], false)
  else
    let faces := state_string
    let face_states := color_face_mapping.map fun p =>
      (capitalize p.1, (tiles_of p.2).all fun index => faces.getD index ' ' == p.2)
    let is_solved := if face_states.isEmpty then false else face_states.all (·.2)
    (face_states, is_solved)

/-- `update_cube_state` from helpers/state.py. -/
def update_cube_state (data : CubeData) (state_string : List Char) : CubeData :=
  let fs := build_face_states state_string
  { data with state_string := some state_string, face_states := fs.1,
              is_solved := fs.2, last_update := true }

/-! ## cubes/giiker.py: GiikerDataParser -/

/-- `DECRYPTION_KEY` from giiker.py. -/
def DECRYPTION_KEY : List Nat :=
  [176, 81, 104, 224, 86, 137, 237, 119, 38, 26, 193, 161, 210, 126, 150, 81,
   93, 13, 236, 249, 89, 235, 88, 24, 113, 81, 214, 131, 130, 199, 2, 169,
   39, 165, 171, 41]

/-- `FACES` from giiker.py. -/
def giiker_faces : List Char := ['B', 'D', 'L', 'U', 'R', 'F']

/-- `COLORS` from giiker.py. -/
def giiker_colors : List (List Char) :=
  ["blue".toList, "yellow".toList, "orange".toList,
   "white".toList, "red".toList, "green".toList]

/-- `TURN_AMOUNTS.get(key, 1)` from giiker.py. -/
def turn_amounts (key : Nat) : Int :=
  if key == 0 then 1 else if key == 1 then 2
  else if key == 2 then -1 else if key == 8 then -2 else 1

/-- `CORNER_COLORS` from giiker.py. -/
def CORNER_COLORS : List (List Nat) :=
  [[1, 4, 5], [4, 3, 5], [3, 2, 5], [2, 1, 5],
   [4, 1, 0], [3, 4, 0], [2, 3, 0], [1, 2, 0]]

/-- `EDGE_COLORS` from giiker.py. -/
def EDGE_COLORS : List (List Nat) :=
  [[5, 1], [5, 4], [5, 3], [5, 2], [1, 4], [3, 4],
   [3, 2], [1, 2], [0, 1], [0, 4], [0, 3], [0, 2]]

/-- `CORNER_FACE_INDICES` from giiker.py. -/
def CORNER_FACE_INDICES : List (List Nat) :=
  [[29, 15, 26], [9, 8, 20], [6, 38, 18], [44, 27, 24],
   [17, 35, 51], [2, 11, 45], [36, 0, 47], [33, 42, 53]]

/-- `EDGE_FACE_INDICES` from giiker.py. -/
def EDGE_FACE_INDICES : List (List Nat) :=
  [[25, 28], [23, 12], [19, 7], [21, 41], [32, 16], [5, 10],
   [3, 37], [30, 43], [52, 34], [48, 14], [46, 1], [50, 39]]

/-- `GiikerDataParser._is_encrypted`. -/
def is_encrypted (data : List Nat) : Bool :=
  data.length ≥ 19 && data.getD 18 0 == 0xA7

/-- `GiikerDataParser._get_nibble`. -/
def get_nibble (data : List Nat) (index : Nat) : Nat :=
  let byte_val := data.getD (index / 2) 0
  if index % 2 == 1 then byte_val &&& 0x0F else (byte_val >>> 4) &&& 0x0F

/-- `GiikerDataParser._decrypt_in_place`: the additive byte cipher.  The loop
reads each `data[i]` before writing it, so reading from the accumulator `d`
is the in-place semantics of the source. -/
def decrypt_in_place (data : List Nat) : List Nat :=
  if data.length < 20 then data
  else
    let offset1 := get_nibble data 38
    let offset2 := get_nibble data 39
    (List.range 20).foldl
      (fun d i =>
        let index1 := (offset1 + i) % DECRYPTION_KEY.length
        let index2 := (offset2 + i) % DECRYPTION_KEY.length
        d.set i ((d.getD i 0 + DECRYPTION_KEY.getD index1 0 + DECRYPTION_KEY.getD index2 0) &&& 0xFF))
      data

/-- A parsed Giiker move, the dict built by `_parse_move` (its `"notation"`
key is named `moveName`). -/
structure GiikerMove where
  face : Char
  amount : Int
  moveName : List Char
deriving DecidableEq, Repr

/-- `GiikerDataParser._parse_move`: an out-of-range face index yields the
placeholder move, never an error.  `turn_index - 1` is the Python dict key;
for `turn_index = 0` the Python key `-1` hits the dict default exactly as the
truncated Nat key `0` does. -/
def parse_move (face_index turn_index : Nat) : GiikerMove :=
  if face_index == 0 || face_index > giiker_faces.length then ⟨'?', 0, ['?']⟩
  else
    let face := giiker_faces.getD (face_index - 1) '?'
    let amount := turn_amounts (turn_index - 1)
    let mn : List Char :=
      if amount == 2 then [face, '2']
      else if amount == -1 then [face, primeChar]
      else if amount == -2 then [face, '2', primeChar]
      else [face]
    ⟨face, amount, mn⟩

/-- The `state` dict built by `GiikerDataParser._parse_cube_payload`. -/
structure GiikerState where
  corner_positions : List Nat := []
  corner_orientations : List Nat := []
  edge_positions : List Nat := []
  edge_orientations : List Bool := []
deriving DecidableEq, Repr

/-- `GiikerDataParser._parse_cube_payload`. -/
def parse_cube_payload (data : List Nat) : GiikerState × List GiikerMove :=
  data.enum.foldl
    (fun acc iv =>
      let (st, moves) := acc
      let (i, move) := iv
      let high_nibble := move >>> 4
      let low_nibble := move &&& 0x0F
      if i < 4 then
        ({ st with corner_positions := st.corner_positions ++ [high_nibble, low_nibble] }, moves)
      else if i < 8 then
        ({ st with corner_orientations := st.corner_orientations ++ [high_nibble, low_nibble] }, moves)
      else if i < 14 then
        ({ st with edge_positions := st.edge_positions ++ [high_nibble, low_nibble] }, moves)
      else if i < 16 then
        let eo := st.edge_orientations ++
          [move &&& 0x80 != 0, move &&& 0x40 != 0, move &&& 0x20 != 0, move &&& 0x10 != 0]
        let eo := if i == 14 then
            eo ++ [move &&& 0x08 != 0, move &&& 0x04 != 0, move &&& 0x02 != 0, move &&& 0x01 != 0]
          else eo
        ({ st with edge_orientations := eo }, moves)
      else
        (st, moves ++ [parse_move high_nibble low_nibble]))
    ({}, [])

/-- `GiikerDataParser._map_corner_colors`.  For `orientation > 3` the Python
value `3 - orientation` is negative and both equality tests fail; the
truncated Nat difference `0` fails them too, so the branches agree. -/
def map_corner_colors (colors : List Nat) (orientation position : Nat) : List Nat :=
  let orientation :=
    if orientation != 3 &&
        (position == 0 || position == 2 || position == 5 || position == 7) then
      3 - orientation
    else orientation
  if orientation == 1 then [colors.getD 1 0, colors.getD 2 0, colors.getD 0 0]
  else if orientation == 2 then [colors.getD 2 0, colors.getD 0 0, colors.getD 1 0]
  else [colors.getD 0 0, colors.getD 1 0, colors.getD 2 0]

/-- `GiikerDataParser._map_edge_colors`. -/
def map_edge_colors (colors : List Nat) (orientation : Bool) : List Nat :=
  if orientation then [colors.getD 1 0, colors.getD 0 0]
  else [colors.getD 0 0, colors.getD 1 0]

/-- `GiikerDataParser._build_state`: returns the state string, the face
solved map and the solved flag.  Tiles never written stay `none` and render
as the placeholder `'?'`. -/
def giiker_build_state (state : GiikerState) :
    List Char × List (List Char × Bool) × Bool :=
  let faces : List (Option Char) := List.replicate 54 none
  let faces := state.corner_positions.enum.foldl
    (fun faces ip =>
      let (index, position) := ip
      if position == 0 || position > CORNER_COLORS.length then faces
      else if state.corner_orientations.length ≤ index then faces
      else
        let mapped := map_corner_colors (CORNER_COLORS.getD (position - 1) [])
          (state.corner_orientations.getD index 0) index
        (CORNER_FACE_INDICES.getD index []).enum.foldl
          (fun faces fc =>
            let (face_index, cube_index) := fc
            if mapped.length ≤ face_index then faces
            else faces.set cube_index (some (face_of_color (giiker_colors.getD (mapped.getD face_index 0) []))))
          faces)
    faces
  let faces := state.edge_positions.enum.foldl
    (fun faces ip =>
      let (index, position) := ip
      if position == 0 || position > EDGE_COLORS.length then faces
      else if state.edge_orientations.length ≤ index then faces
      else
        let mapped := map_edge_colors (EDGE_COLORS.getD (position - 1) [])
          (state.edge_orientations.getD index false)
        (EDGE_FACE_INDICES.getD index []).enum.foldl
          (fun faces fc =>
            let (face_index, cube_index) := fc
            if mapped.length ≤ face_index then faces
            else faces.set cube_index (some (face_of_color (giiker_colors.getD (mapped.getD face_index 0) []))))
          faces)
    faces
  let faces := ((((((faces.set 4 (some 'U')).set 13 (some 'R')).set 22 (some 'F')).set 31
    (some 'D')).set 40 (some 'L')).set 49 (some 'B'))
  let state_string := faces.map fun face => face.getD '?'
  let face_states := color_face_mapping.map fun p =>
    (capitalize p.1, (tiles_of p.2).all fun index => faces.getD index none == some p.2)
  let is_solved := if face_states.isEmpty then false else face_states.all (·.2)
  (state_string, face_states, is_solved)

/-- `GiikerDataParser.parse_cube_value`: returns the updated `CubeData` and
the move notation returned to the notification handler. -/
def parse_cube_value (data : CubeData) (raw : List Nat) :
    CubeData × Option (List Char) :=
  if raw.isEmpty then (data, none)
  else
    let data := { data with last_raw := some raw }
    let d := if is_encrypted raw then decrypt_in_place raw else raw
    let data := { data with last_decrypted := some d }
    let (st, moves) := parse_cube_payload d
    let bs := giiker_build_state st
    let data := { data with state_string := some bs.1, face_states := bs.2.1,
                            is_solved := bs.2.2, last_update := true }
    let last_move := (moves.head?).map (·.moveName)
    let data := match last_move with
      | some m => { data with last_move := some m }
      | none => data
    (data, last_move)

/-! ## base.py: callback broadcasting -/

/-- `BaseCubeConnection._notify_state_change`: iterate the registered
callbacks (identified by `Nat` tokens, `raises` telling which ones throw) in
registry order and call each; a raised exception aborts the loop and
propagates.  Returns the callbacks actually invoked and whether an exception
escaped. -/
def notify_all (cbs : List Nat) (raises : Nat → Bool) : List Nat × Bool :=
  match cbs with
  | [] => ([], false)
  | c :: rest =>
    if raises c then ([c], true)
    else
      let r := notify_all rest raises
      (c :: r.1, r.2)

/-- `GiikerConnection._notify_state_change`: the override wraps the whole
base-class broadcast in one `try`, so the exception is swallowed but delivery
still stops at the failing callback. -/
def giiker_notify_state_change (cbs : List Nat) (raises : Nat → Bool) :
    List Nat × Bool :=
  ((notify_all cbs raises).1, false)

/-! ## registry.py -/

/-- `CubeModel` from registry.py (the `connection_class` field is a Python
class object; the `cube_type` field identifies it one-to-one). -/
structure CubeModel where
  cube_type : List Char
  manufacturer : List Char
  model : List Char
  name_prefixes : List (List Char)
  service_uuids : List (List Char)
deriving DecidableEq, Repr

/-- `CUBE_MODELS` from registry.py. -/
def CUBE_MODELS : List CubeModel :=
  [⟨"giiker".toList, "Giiker".toList, "Giiker".toList,
    ["Gi".toList, "Hi-".toList, "HiG".toList, "Hi-G".toList],
    ["0000aadb-0000-1000-8000-00805f9b34fb".toList,
     "0000aaaa-0000-1000-8000-00805f9b34fb".toList]⟩,
   ⟨"gocube".toList, "GoCube".toList, "GoCube".toList,
    ["GoCube".toList, "Rubiks".toList],
    ["6e400001-b5a3-f393-e0a9-e50e24dcca9e".toList]⟩,
   ⟨"gan".toList, "GAN".toList, "GAN".toList,
    ["GAN".toList, "MG".toList, "AiCube".toList],
    ["0000fff0-0000-1000-8000-00805f9b34fb".toList,
     "6e400001-b5a3-f393-e0a9-e50e24dc4179".toList,
     "8653000a-43e6-47b7-9cb0-5fc21d4ae340".toList,
     "00000010-0000-fff7-fff6-fff5fff4fff0".toList]⟩,
   ⟨"qiyi".toList, "QiYi".toList, "QiYi".toList,
    ["QY-QYSC".toList, "XMD-TornadoV4-i".toList],
    ["0000fff0-0000-1000-8000-00805f9b34fb".toList]⟩]

/-- Python `str.startswith(tuple)`. -/
def starts_with_any (name : List Char) (ps : List (List Char)) : Bool :=
  ps.any fun p => p.isPrefixOf name

/-- Python `str.lower`. -/
def lower (s : List Char) : List Char := s.map Char.toLower

/-- `match_advertisement` from registry.py: one pass over the static list,
each model tested first by name prefix and then by service-UUID
intersection. -/
def match_advertisement (name : Option (List Char))
    (service_uuids : Option (List (List Char))) : Option CubeModel :=
  let name_value := name.getD []
  let uuid_values := service_uuids.getD []
  CUBE_MODELS.find? fun model =>
    starts_with_any name_value model.name_prefixes ||
      model.service_uuids.any fun uuid =>
        uuid_values.any fun suuid => lower uuid == lower suuid

/-- Modelled from the spec (§4.6 `match`): the first static-list entry whose
name prefix matches, and only if no entry matches by name, the first whose
service-UUID set intersects the advertisement's, else none.  This is the
claimed two-pass behaviour, stated for comparison with the source's
`match_advertisement`. -/
def spec_match_advertisement (name : Option (List Char))
    (service_uuids : Option (List (List Char))) : Option CubeModel :=
  let name_value := name.getD []
  let uuid_values := service_uuids.getD []
  match CUBE_MODELS.find? (fun model => starts_with_any name_value model.name_prefixes) with
  | some m => some m
  | none =>
    CUBE_MODELS.find? fun model =>
      model.service_uuids.any fun uuid =>
        uuid_values.any fun suuid => lower uuid == lower suuid

/-! ## cubes/qiyicube.py -/

/-- One iteration of the inner bit loop of `_crc16_modbus`. -/
def crc_round (crc : Nat) : Nat :=
  if crc &&& 0x1 == 1 then (crc >>> 1) ^^^ 0xA001 else crc >>> 1

/-- The body of the outer byte loop of `_crc16_modbus`: xor the byte in, then
run eight rounds. -/
def crc_byte (crc b : Nat) : Nat :=
  (List.range 8).foldl (fun c _ => crc_round c) (crc ^^^ b)

/-- `_crc16_modbus` from qiyicube.py. -/
def crc16_modbus (data : List Nat) : Nat :=
  (data.foldl crc_byte 0xFFFF) &&& 0xFFFF

/-- The string `"LRDUFB"` indexed by `_parse_facelet`. -/
def qiyi_face_chars : List Char := ['L', 'R', 'D', 'U', 'F', 'B']

/-- `_parse_facelet` from qiyicube.py.  Both indexings can go out of range in
the source (`face_msg[i >> 1]` for a short message, `"LRDUFB"[val & 0xF]` for
a tile nibble above 5) and raise `IndexError`; `none` models the raise. -/
def qiyi_parse_facelet (face_msg : List Nat) : Option (List Char) :=
  (List.range 54).foldl
    (fun acc i =>
      acc.bind fun ret =>
        match face_msg[i >>> 1]? with
        | none => none
        | some byte =>
          let val := byte >>> ((i % 2) * 4)
          match qiyi_face_chars[val &&& 0xF]? with
          | none => none
          | some ch => some (ret ++ [ch]))
    (some [])

/-! ## cubes/gancube.py: GanConnection frame parsing

The AES transport decode is outside the claims; the parsers below take the
decoded frame bytes, as `_notification_handler` passes them. -/

/-- The big-endian bit string `"".join(f"{b:08b}" for b in decoded)`. -/
def bits_of_bytes (bytes : List Nat) : List Nat :=
  bytes.flatMap fun b => (List.range 8).map fun k => (b >>> (7 - k)) &&& 1

/-- `int(bitlist, 2)`. -/
def bits_val (l : List Nat) : Nat := l.foldl (fun acc bit => 2 * acc + bit) 0

/-- `int(bits[a:b], 2)` for full-length frames (an empty Python slice would
raise in `int`; the claims range over full frames only). -/
def bit_slice (bits : List Nat) (a b : Nat) : Nat :=
  bits_val ((bits.drop a).take (b - a))

/-- The adapter state of `GanConnection` relevant to frame parsing:
`_move_cnt`, `_cube` and `_data`. -/
structure GanState where
  move_cnt : Int
  cube : CubieCube
  data : CubeData
deriving DecidableEq, Repr

/-- `GanConnection.__init__`: `_move_cnt = -1`, `_cube = CubieCube()`,
`_data = CubeData()`. -/
def initial_gan_state : GanState := ⟨-1, CubieCube.mk0, {}⟩

/-- `"URFDLB".find(ch)` as an `Option`. -/
def urfdlb_find (ch : Char) : Option Nat :=
  face_chars.findIdx? fun x => x == ch

/-- The result of one notification-frame parse: the new adapter state, the
movement callbacks fired (in order), the number of state-change broadcasts,
and whether a Python exception escaped the handler. -/
structure GanParse where
  state : GanState
  fired : List (List Char)
  notified : Nat
  raised : Bool
deriving DecidableEq, Repr

/-- The loop body of `GanConnection._apply_moves`: skip a move whose face
letter is unknown, otherwise apply the turn, update `last_move` and the cube
state, and fire one movement callback. -/
def gan_move_body (acc : GanState × List (List Char)) (move : List Char) :
    GanState × List (List Char) :=
  let (s, fired) := acc
  match urfdlb_find (move.headD ' ') with
  | none => (s, fired)
  | some axis =>
    let power := if move.getLast? == some primeChar then 2 else 0
    let cube := apply_move_index s.cube (axis * 3 + power)
    let data := update_cube_state { s.data with last_move := some move } (to_facelet cube)
    ({ s with cube := cube, data := data }, fired ++ [move])

/-- `GanConnection._apply_moves`: apply the moves in reversed wire order, one
turn at a time; a nonempty list ends with one state-change broadcast. -/
def gan_apply_moves (s : GanState) (moves : List (List Char)) :
    GanState × List (List Char) × Nat :=
  if moves.isEmpty then (s, [], 0)
  else
    let r := moves.reverse.foldl gan_move_body (s, [])
    (r.1, r.2, 1)

/-- `_parse_gan_facelet` from gancube.py: rebuild a `CubieCube` from the
bit-packed corner/edge fields, reconstructing the untransmitted last corner
and edge from the checksum accumulators, then export its facelet string.
(`cchk` stays far above zero, so Nat subtraction is exact.) -/
def parse_gan_facelet (bits : List Nat)
    (corner_perm_start corner_ori_start edge_perm_start edge_ori_start : Nat) :
    List Char :=
  let cc0 := CubieCube.mk0
  let step := (List.range 7).foldl
    (fun acc i =>
      let (ca, cchk) := acc
      let perm := bit_slice bits (corner_perm_start + i * 3) (corner_perm_start + i * 3 + 3)
      let ori := bit_slice bits (corner_ori_start + i * 2) (corner_ori_start + i * 2 + 2)
      (ca.set i ((ori <<< 3) ||| perm), (cchk - (ori <<< 3)) ^^^ perm))
    (cc0.ca, 0xF00)
  let ca := step.1.set 7 (((step.2 &&& 0xFF8) % 24) ||| (step.2 &&& 0x7))
  let estep := (List.range 11).foldl
    (fun acc i =>
      let (ea, echk) := acc
      let perm := bit_slice bits (edge_perm_start + i * 4) (edge_perm_start + i * 4 + 4)
      let ori := bit_slice bits (edge_ori_start + i) (edge_ori_start + i + 1)
      (ea.set i ((perm <<< 1) ||| ori), echk ^^^ ((perm <<< 1) ||| ori)))
    (cc0.ea, 0)
  let ea := estep.1.set 11 estep.2
  to_facelet ⟨ca, ea⟩

/-- The loop body of `GanConnection._parse_v1`: decode one raw history move
byte, apply it (twice for a half turn), update state and fire one movement
callback. -/
def gan_v1_body (decoded : List Nat) (acc : GanState × List (List Char)) (i : Nat) :
    GanState × List (List Char) :=
  let (s, fired) := acc
  let m := decoded.getD (13 + i) 0
  let face := face_chars.getD (m / 3) '?'
  let suffix := ([[], ['2'], [primeChar]] : List (List Char)).getD (m % 3) []
  let move := face :: suffix
  let axis := (urfdlb_find face).getD 0
  let power := if suffix == [primeChar] then 2 else 0
  let cube := apply_move_index s.cube (axis * 3 + power)
  let cube := if suffix == ['2'] then apply_move_index cube (axis * 3 + power) else cube
  let data := update_cube_state { s.data with last_move := some move } (to_facelet cube)
  ({ s with cube := cube, data := data }, fired ++ [move])

/-- `GanConnection._parse_v1` (takes the decoded bytes): no sentinel check,
six raw history moves per frame, each applied and fired, then one
state-change broadcast. -/
def parse_v1 (s : GanState) (decoded : List Nat) : GanParse :=
  let move_cnt := decoded.getD 12 0
  if (move_cnt : Int) == s.move_cnt then ⟨s, [], 0, false⟩
  else
    let r := (List.range 6).foldl (gan_v1_body decoded) ({ s with move_cnt := move_cnt }, [])
    ⟨r.1, r.2, 1, false⟩

/-- `GanConnection._parse_v2` (takes the decoded bytes). -/
def parse_v2 (s : GanState) (decoded : List Nat) : GanParse :=
  let bits := bits_of_bytes decoded
  let mode := bit_slice bits 0 4
  if mode == 2 then
    let move_cnt := bit_slice bits 4 12
    if (move_cnt : Int) == s.move_cnt || s.move_cnt == -1 then
      ⟨{ s with move_cnt := move_cnt }, [], 0, false⟩
    else
      let moves := (List.range 7).foldl
        (fun ms i =>
          let m := bit_slice bits (12 + i * 5) (17 + i * 5)
          if 12 ≤ m then ms
          else
            let face := face_chars.getD (m >>> 1) '?'
            let suffix : List Char := if m &&& 1 == 1 then [primeChar] else []
            ms ++ [face :: suffix])
        []
      let r := gan_apply_moves s moves
      ⟨{ r.1 with move_cnt := move_cnt }, r.2.1, r.2.2, false⟩
  else if mode == 4 then
    let facelet := parse_gan_facelet bits 12 33 47 91
    let cube := (from_facelet s.cube facelet).getD s.cube
    ⟨{ s with cube := cube, data := update_cube_state s.data facelet }, [], 1, false⟩
  else if mode == 9 then
    ⟨{ s with data := { s.data with battery_level := some (bit_slice bits 8 16) } }, [], 1, false⟩
  else ⟨s, [], 0, false⟩

/-- `GanConnection._parse_v3`.  `raised` is true when the Python `list.index`
call raises `ValueError` (an axis-bit pattern outside the table), aborting
the handler before the counter is stored. -/
def parse_v3 (s : GanState) (decoded : List Nat) : GanParse :=
  let bits := bits_of_bytes decoded
  if bit_slice bits 0 8 != 0x55 then ⟨s, [], 0, false⟩
  else
    let mode := bit_slice bits 8 16
    if mode == 1 then
      let move_cnt := bits_val (((bits.drop 64).take 8) ++ ((bits.drop 56).take 8))
      if (move_cnt : Int) == s.move_cnt || s.move_cnt == -1 then
        ⟨{ s with move_cnt := move_cnt }, [], 0, false⟩
      else
        let pow_bits := bit_slice bits 72 74
        let axis_bits := bit_slice bits 74 80
        match ([2, 32, 8, 1, 16, 4] : List Nat).findIdx? (fun x => x == axis_bits) with
        | none => ⟨s, [], 0, true⟩
        | some axis =>
          let suffix : List Char := if pow_bits == 1 then [primeChar] else []
          let move := face_chars.getD axis '?' :: suffix
          let r := gan_apply_moves s [move]
          ⟨{ r.1 with move_cnt := move_cnt }, r.2.1, r.2.2, false⟩
    else if mode == 2 then
      let facelet := parse_gan_facelet bits 40 61 77 121
      let cube := (from_facelet s.cube facelet).getD s.cube
      ⟨{ s with cube := cube, data := update_cube_state s.data facelet }, [], 1, false⟩
    else if mode == 16 then
      ⟨{ s with data := { s.data with battery_level := some (bit_slice bits 24 32) } }, [], 1, false⟩
    else ⟨s, [], 0, false⟩

/-- `GanConnection._parse_v4`, with the same `ValueError` flag as v3. -/
def parse_v4 (s : GanState) (decoded : List Nat) : GanParse :=
  let bits := bits_of_bytes decoded
  let mode := bit_slice bits 0 8
  if mode == 0x01 then
    let move_cnt := bits_val (((bits.drop 56).take 8) ++ ((bits.drop 48).take 8))
    if (move_cnt : Int) == s.move_cnt || s.move_cnt == -1 then
      ⟨{ s with move_cnt := move_cnt }, [], 0, false⟩
    else
      let pow_bits := bit_slice bits 64 66
      let axis_bits := bit_slice bits 66 72
      match ([2, 32, 8, 1, 16, 4] : List Nat).findIdx? (fun x => x == axis_bits) with
      | none => ⟨s, [], 0, true⟩
      | some axis =>
        let suffix : List Char := if pow_bits == 1 then [primeChar] else []
        let move := face_chars.getD axis '?' :: suffix
        let r := gan_apply_moves s [move]
        ⟨{ r.1 with move_cnt := move_cnt }, r.2.1, r.2.2, false⟩
  else if mode == 0xED then
    let facelet := parse_gan_facelet bits 32 53 69 113
    let cube := (from_facelet s.cube facelet).getD s.cube
    ⟨{ s with cube := cube, data := update_cube_state s.data facelet }, [], 1, false⟩
  else if mode == 0xEF then
    let length := bit_slice bits 8 16
    ⟨{ s with data := { s.data with
        battery_level := some (bit_slice bits (8 + length * 8) (16 + length * 8)) } }, [], 1, false⟩
  else ⟨s, [], 0, false⟩

/-! ## Derived notions used to state and prove the claims -/

/-- The corner-permutation entry `ca[i] & 7` of a cube. -/
def caperm (c : CubieCube) (i : Nat) : Nat := (c.ca.getD i 0) &&& 7

/-- The corner-orientation entry `ca[i] >> 3` of a cube. -/
def caori (c : CubieCube) (i : Nat) : Nat := (c.ca.getD i 0) >>> 3

/-- The edge-permutation entry `ea[i] >> 1` of a cube. -/
def eaperm (c : CubieCube) (i : Nat) : Nat := (c.ea.getD i 0) >>> 1

/-- The edge-orientation entry `ea[i] & 1` of a cube. -/
def eaori (c : CubieCube) (i : Nat) : Nat := (c.ea.getD i 0) &&& 1

/-- Structural validity of a `CubieCube`: well-sized arrays, packed entries
below 24, and corner/edge permutation parts that permute their slot ranges.
All states reachable from the solved state by elementary moves satisfy it. -/
def ValidCube (c : CubieCube) : Prop :=
  c.ca.length = 8 ∧ c.ea.length = 12 ∧
  (∀ i < 8, c.ca.getD i 0 < 24) ∧ (∀ i < 12, c.ea.getD i 0 < 24) ∧
  ((List.range 8).map (caperm c)).Perm (List.range 8) ∧
  ((List.range 12).map (eaperm c)).Perm (List.range 12)

instance (c : CubieCube) : Decidable (ValidCube c) := by
  unfold ValidCube; infer_instance

/-- The color-index list derived from `to_facelet c` by `from_facelet`. -/
def fList (c : CubieCube) : List Nat :=
  (List.range 54).map fun i => (to_perm c).getD i 0 / 9

/-- The 24 corner facelet positions in table order. -/
def cpos_list : List Nat := (List.range 8).flatMap fun i => (List.range 3).map (cf i)

/-- The 24 edge facelet positions in table order. -/
def epos_list : List Nat := (List.range 12).flatMap fun i => (List.range 2).map (ef i)

/-- Invariant of the Giiker `faces` buffer: 54 entries, each absent (rendered
as the placeholder) or a face letter. -/
def Qfaces (faces : List (Option Char)) : Prop :=
  faces.length = 54 ∧
  ∀ o ∈ faces, o.getD '?' ∈ (['U', 'R', 'F', 'D', 'L', 'B', '?'] : List Char)

/-- The state-string invariant of claim C3: length 54, characters drawn from
`allowed`, and the six fixed center letters. -/
def facelet_string_ok (allowed : List Char) (s : List Char) : Prop :=
  s.length = 54 ∧ (∀ ch ∈ s, ch ∈ allowed) ∧
  s.getD 4 ' ' = 'U' ∧ s.getD 13 ' ' = 'R' ∧ s.getD 22 ' ' = 'F' ∧
  s.getD 31 ' ' = 'D' ∧ s.getD 40 ' ' = 'L' ∧ s.getD 49 ' ' = 'B'

/-- The advertisement-match predicate of one registry entry, stated at the
proposition level: a name prefix matches, or the service-UUID sets intersect
modulo case. -/
def hits (name : Option (List Char)) (service_uuids : Option (List (List Char)))
    (m : CubeModel) : Prop :=
  (∃ p ∈ m.name_prefixes, p <+: name.getD []) ∨
  (∃ uuid ∈ m.service_uuids, ∃ suuid ∈ service_uuids.getD [], lower uuid = lower suuid)

/-! ## Generic list lemmas -/

theorem getD_set_ne {α : Type} (l : List α) (i j : Nat) (v d : α) (h : i ≠ j) :
    (l.set i v).getD j d = l.getD j d := by
  simp [List.getD_eq_getElem?_getD, List.getElem?_set_ne h]

theorem getD_set_self {α : Type} (l : List α) (i : Nat) (v d : α) (h : i < l.length) :
    (l.set i v).getD i d = v := by
  simp [List.getD_eq_getElem?_getD, List.getElem?_set_self, h]

theorem foldl_set_length {α : Type} (ws : List (Nat × α)) (f : List α) :
    (ws.foldl (fun f w => f.set w.1 w.2) f).length = f.length := by
  induction ws generalizing f with
  | nil => rfl
  | cons w t ih => rw [List.foldl_cons, ih, List.length_set]

theorem foldl_set_getD_not_mem {α : Type} (ws : List (Nat × α)) (f : List α) (p : Nat) (d : α)
    (h : ∀ w ∈ ws, w.1 ≠ p) :
    (ws.foldl (fun f w => f.set w.1 w.2) f).getD p d = f.getD p d := by
  induction ws generalizing f with
  | nil => rfl
  | cons w t ih =>
    rw [List.foldl_cons, ih _ fun u hu => h u (List.mem_cons_of_mem _ hu)]
    exact getD_set_ne _ _ _ _ _ (h w (List.mem_cons_self _ _))

theorem foldl_set_getD_of_mem {α : Type} (ws : List (Nat × α)) (f : List α) (p : Nat) (v d : α)
    (hp : p < f.length) (hmem : (p, v) ∈ ws)
    (huniq : ∀ w ∈ ws, w.1 = p → w.2 = v) :
    (ws.foldl (fun f w => f.set w.1 w.2) f).getD p d = v := by
  induction ws generalizing f with
  | nil => cases hmem
  | cons w t ih =>
    rw [List.foldl_cons]
    by_cases hw : ∃ u ∈ t, u.1 = p
    · obtain ⟨u, hut, hup⟩ := hw
      have huv : u.2 = v := huniq u (List.mem_cons_of_mem _ hut) hup
      have hu : (p, v) ∈ t := by
        have : u = (p, v) := by
          cases u; simp only at hup huv; rw [hup, huv]
        exact this ▸ hut
      exact ih _ (by rw [List.length_set]; exact hp) hu
        fun u hu' hup' => huniq u (List.mem_cons_of_mem _ hu') hup'
    · push_neg at hw
      have hwp : w = (p, v) := by
        rcases List.mem_cons.1 hmem with h1 | h2
        · exact h1.symm
        · exact absurd rfl (hw _ h2)
      subst hwp
      rw [foldl_set_getD_not_mem t _ p d fun u hu => hw u hu]
      exact getD_set_self _ _ _ _ hp

theorem getD_map_range {α : Type} (n i : Nat) (g : Nat → α) (d : α) (h : i < n) :
    ((List.range n).map g).getD i d = g i := by
  rw [List.getD_eq_getElem?_getD, List.getElem?_map, List.getElem?_range h]
  rfl

theorem foldl_congr_mem {α β : Type} (l : List α) (f g : β → α → β) (b : β)
    (h : ∀ acc, ∀ a ∈ l, f acc a = g acc a) : l.foldl f b = l.foldl g b := by
  induction l generalizing b with
  | nil => rfl
  | cons a t ih =>
    rw [List.foldl_cons, List.foldl_cons, h b a (List.mem_cons_self _ _)]
    exact ih _ fun acc x hx => h acc x (List.mem_cons_of_mem _ hx)

theorem find_range_eq (n : Nat) (p : Nat → Bool) (o : Nat) (ho : o < n)
    (ht : p o = true) (hf : ∀ j < o, p j = false) :
    (List.range n).find? p = some o := by
  induction n generalizing p o with
  | zero => omega
  | succ n ih =>
    rw [List.range_succ_eq_map, List.find?_cons]
    cases o with
    | zero => simp [ht]
    | succ o' =>
      have h0 : p 0 = false := hf 0 (Nat.succ_pos _)
      rw [h0]
      simp only [cond_false]
      rw [List.find?_map]
      rw [ih (p ∘ Nat.succ) o' (by omega) ht fun j hj => hf (j + 1) (by omega)]
      rfl

theorem find?_idx_spec {α : Type} (l : List α) (p : α → Bool) (a : α) (h : l.find? p = some a) :
    ∃ k, ∃ hk : k < l.length, l.get ⟨k, hk⟩ = a ∧ p a = true ∧
      ∀ j, ∀ hj : j < k, p (l.get ⟨j, Nat.lt_trans hj hk⟩) = false := by
  induction l with
  | nil => cases h
  | cons b t ih =>
    rw [List.find?_cons] at h
    cases hpb : p b with
    | true =>
      rw [hpb] at h
      have hba : b = a := Option.some.inj h
      subst hba
      exact ⟨0, Nat.succ_pos _, rfl, hpb, fun j hj => by omega⟩
    | false =>
      rw [hpb] at h
      obtain ⟨k, hk, hget, hpa, hprev⟩ := ih h
      refine ⟨k + 1, Nat.succ_lt_succ hk, hget, hpa, fun j hj => ?_⟩
      cases j with
      | zero => exact hpb
      | succ j' => exact hprev j' (by omega)

theorem foldl_option_append_eq {β : Type} (body : Option (List β) → Nat → Option (List β))
    (g : Nat → β) :
    ∀ n, (∀ ret i, i < n → body (some ret) i = some (ret ++ [g i])) →
      (List.range n).foldl body (some []) = some ((List.range n).map g) := by
  intro n
  induction n with
  | zero => intro _; rfl
  | succ n ih =>
    intro h
    rw [List.range_succ, List.foldl_append, ih fun ret i hi => h ret i (by omega),
      List.foldl_cons, List.foldl_nil, h _ n (by omega), List.map_append]
    rfl

theorem foldl_invariant {α β : Type} (l : List α) (f : β → α → β) (P : β → Prop)
    (h : ∀ b, ∀ a ∈ l, P b → P (f b a)) (b0 : β) (hb : P b0) : P (l.foldl f b0) := by
  induction l generalizing b0 with
  | nil => exact hb
  | cons a t ih =>
    rw [List.foldl_cons]
    exact ih (fun b x hx => h b x (List.mem_cons_of_mem _ hx)) _
      (h b0 a (List.mem_cons_self _ _) hb)

theorem getD_range (n i : Nat) (d : Nat) (h : i < n) : (List.range n).getD i d = i := by
  rw [List.getD_eq_getElem?_getD, List.getElem?_range h]
  rfl

theorem getD_map_lt {α β : Type} (l : List α) (f : α → β) (i : Nat) (d : β) (d' : α)
    (h : i < l.length) : (l.map f).getD i d = f (l.getD i d') := by
  rw [List.getD_eq_getElem l d' h,
    List.getD_eq_getElem (l.map f) d (by rw [List.length_map]; exact h)]
  exact List.getElem_map f

theorem foldl_range_set_getD {α : Type} (n : Nat) (g : Nat → α → α) (l0 : List α) (d : α)
    (hn : n ≤ l0.length) :
    ∀ j, ((List.range n).foldl (fun l i => l.set i (g i (l.getD i d))) l0).getD j d =
      if j < n then g j (l0.getD j d) else l0.getD j d := by
  induction n with
  | zero => intro j; simp
  | succ n ih =>
    intro j
    have hlen : ((List.range n).foldl (fun l i => l.set i (g i (l.getD i d))) l0).length =
        l0.length := by
      apply foldl_invariant (P := fun l : List α => l.length = l0.length)
      · intro b a _ hb; rw [List.length_set]; exact hb
      · rfl
    rw [List.range_succ, List.foldl_append, List.foldl_cons, List.foldl_nil]
    rcases Nat.lt_trichotomy j n with hj | hj | hj
    · rw [getD_set_ne _ _ _ _ _ (by omega), ih (by omega) j, if_pos hj, if_pos (by omega)]
    · subst hj
      rw [getD_set_self _ _ _ _ (by rw [hlen]; omega), ih (by omega) j, if_neg (by omega),
        if_pos (by omega)]
    · rw [getD_set_ne _ _ _ _ _ (by omega), ih (by omega) j, if_neg (by omega),
        if_neg (by omega)]

/-! ## Claim C2: four quarter turns restore the solved facelet string -/

/-- C2: for each face's quarter-turn index, applying that elementary move four
times to the solved state yields the solved facelet string. -/
theorem c2_four_quarter_turns :
    ∀ k ∈ ([0, 3, 6, 9, 12, 15] : List Nat),
      to_facelet (apply_move_index (apply_move_index (apply_move_index
        (apply_move_index CubieCube.mk0 k) k) k) k) = solved_facelet := by
  decide

/-- Witness for C2 at the U quarter turn (move index 0). -/
theorem c2_four_quarter_turns_witness :
    to_facelet (apply_move_index (apply_move_index (apply_move_index
      (apply_move_index CubieCube.mk0 0) 0) 0) 0) = solved_facelet :=
  c2_four_quarter_turns 0 (by decide)

/-! ## Claim C5: the Giiker additive cipher -/

/-- C5 (amended): the key table has length 36 and each of the first 20 output
bytes is the cipher byte PLUS the two selected key bytes, modulo 256. -/
theorem c5_decrypt_formula (data : List Nat) (h20 : 20 ≤ data.length)
    (hbytes : ∀ b ∈ data, b < 256) :
    DECRYPTION_KEY.length = 36 ∧
    ∀ i < 20, (decrypt_in_place data).getD i 0 =
      (data.getD i 0 + DECRYPTION_KEY.getD ((get_nibble data 38 + i) % 36) 0 +
        DECRYPTION_KEY.getD ((get_nibble data 39 + i) % 36) 0) % 256 := by
  refine ⟨rfl, fun i hi => ?_⟩
  have hkeylen : DECRYPTION_KEY.length = 36 := rfl
  have hstep : decrypt_in_place data = (List.range 20).foldl
      (fun d i => d.set i ((fun i x => (x +
        DECRYPTION_KEY.getD ((get_nibble data 38 + i) % DECRYPTION_KEY.length) 0 +
        DECRYPTION_KEY.getD ((get_nibble data 39 + i) % DECRYPTION_KEY.length) 0) &&& 0xFF)
        i (d.getD i 0))) data := by
    unfold decrypt_in_place
    rw [if_neg (by omega)]
  rw [hstep, foldl_range_set_getD 20 (fun i x => (x +
        DECRYPTION_KEY.getD ((get_nibble data 38 + i) % DECRYPTION_KEY.length) 0 +
        DECRYPTION_KEY.getD ((get_nibble data 39 + i) % DECRYPTION_KEY.length) 0) &&& 0xFF)
      data 0 (by omega) i, if_pos hi]
  have hd : data.getD i 0 < 256 := by
    have hmem : data.getD i 0 ∈ data := by
      rw [List.getD_eq_getElem data 0 (by omega)]
      exact List.getElem_mem _
    exact hbytes _ hmem
  have hk : ∀ j : Nat, DECRYPTION_KEY.getD j 0 < 256 := by
    intro j
    by_cases hj : j < 36
    · exact (by decide : ∀ j < 36, DECRYPTION_KEY.getD j 0 < 256) j hj
    · rw [List.getD_eq_default _ _ (by rw [hkeylen]; omega)]
      omega
  have hmask : ∀ x < 768, x &&& 0xFF = x % 256 := by decide
  rw [hkeylen]
  exact hmask _ (by
    have h1 := hk ((get_nibble data 38 + i) % 36)
    have h2 := hk ((get_nibble data 39 + i) % 36)
    omega)

/-- Witness for C5 at the all-zero 20-byte payload. -/
theorem c5_decrypt_formula_witness :
    DECRYPTION_KEY.length = 36 ∧
    ∀ i < 20, (decrypt_in_place (List.replicate 20 0)).getD i 0 =
      ((List.replicate 20 0).getD i 0 +
        DECRYPTION_KEY.getD ((get_nibble (List.replicate 20 0) 38 + i) % 36) 0 +
        DECRYPTION_KEY.getD ((get_nibble (List.replicate 20 0) 39 + i) % 36) 0) % 256 :=
  c5_decrypt_formula (List.replicate 20 0) (by decide) (by decide)

/-- C5 counterexample: on the all-zero payload the claimed subtractive
formula gives 160 at byte 0, but the code produces 96 (it adds the key
bytes). -/
theorem c5_counterexample :
    ¬ (((decrypt_in_place (List.replicate 20 0)).getD 0 0 : Int) =
      (((List.replicate 20 0).getD 0 0 : Int) -
        (DECRYPTION_KEY.getD ((get_nibble (List.replicate 20 0) 38 + 0) % 36) 0 : Nat) -
        (DECRYPTION_KEY.getD ((get_nibble (List.replicate 20 0) 39 + 0) % 36) 0 : Nat)) % 256) := by
  decide

/-! ## Claim C6: tolerance of out-of-range field values -/

/-- C6 (amended): the Giiker move parser substitutes a placeholder for an
out-of-range face index and never fails, while the QiYi facelet parser is
total only when every tile nibble is below 6 (it raises otherwise, see the
counterexample). -/
theorem c6_amended :
    (∀ face_msg : List Nat, face_msg.length = 27 →
      (∀ i < 54, ((face_msg.getD (i >>> 1) 0) >>> ((i % 2) * 4)) &&& 0xF < 6) →
      ∃ ret, qiyi_parse_facelet face_msg = some ret ∧ ret.length = 54) ∧
    (∀ face_index turn_index : Nat, face_index = 0 ∨ 6 < face_index →
      parse_move face_index turn_index = ⟨'?', 0, ['?']⟩) := by
  constructor
  · intro face_msg hlen hnib
    refine ⟨(List.range 54).map fun i =>
      qiyi_face_chars.getD (((face_msg.getD (i >>> 1) 0) >>> ((i % 2) * 4)) &&& 0xF) '?',
      ?_, by rw [List.length_map, List.length_range]⟩
    unfold qiyi_parse_facelet
    apply foldl_option_append_eq
    intro ret i hi
    have hbyte : face_msg[i >>> 1]? = some (face_msg.getD (i >>> 1) 0) := by
      have hlt : i >>> 1 < face_msg.length := by
        rw [hlen, Nat.shiftRight_one]
        omega
      rw [List.getElem?_eq_getElem hlt, List.getD_eq_getElem face_msg 0 hlt]
    have hch : qiyi_face_chars[((face_msg.getD (i >>> 1) 0) >>> ((i % 2) * 4)) &&& 0xF]? =
        some (qiyi_face_chars.getD (((face_msg.getD (i >>> 1) 0) >>> ((i % 2) * 4)) &&& 0xF) '?') := by
      have hlt : ((face_msg.getD (i >>> 1) 0) >>> ((i % 2) * 4)) &&& 0xF <
          qiyi_face_chars.length := hnib i hi
      rw [List.getElem?_eq_getElem hlt, List.getD_eq_getElem qiyi_face_chars '?' hlt]
    simp only [Option.bind_some, hbyte, hch]
    rfl
  · intro face_index turn_index h
    have hcond : (face_index == 0 || face_index > giiker_faces.length) = true := by
      simp only [Bool.or_eq_true, beq_iff_eq, decide_eq_true_eq, giiker_faces,
        List.length_cons, List.length_nil]
      omega
    simp [parse_move, hcond]

/-- Witness for C6 on the all-zero facelet payload and a zero face index. -/
theorem c6_witness :
    (∃ ret, qiyi_parse_facelet (List.replicate 27 0) = some ret ∧ ret.length = 54) ∧
    parse_move 0 5 = ⟨'?', 0, ['?']⟩ :=
  ⟨c6_amended.1 (List.replicate 27 0) (by decide) (by decide),
   c6_amended.2 0 5 (Or.inl rfl)⟩

/-- C6 counterexample: a payload whose first tile nibble is 6 makes the QiYi
facelet parser fail (the source raises `IndexError` on `"LRDUFB"[6]`) instead
of substituting a placeholder. -/
theorem c6_counterexample :
    qiyi_parse_facelet ((6 : Nat) :: List.replicate 26 0) = none := by
  decide

/-! ## Claim C9: a failing subscriber stops the broadcast -/

/-- C9 (amended): with no failing subscriber every callback is invoked; a
failing subscriber is the last one invoked — later subscribers are skipped —
and the base class propagates the exception while the Giiker override
swallows it.  The subscriber registry itself is never modified. -/
theorem c9_amended :
    (∀ cbs : List Nat, ∀ raises : Nat → Bool,
      (∀ c ∈ cbs, raises c = false) → notify_all cbs raises = (cbs, false)) ∧
    (∀ pre : List Nat, ∀ r : Nat, ∀ post : List Nat, ∀ raises : Nat → Bool,
      (∀ c ∈ pre, raises c = false) → raises r = true →
      notify_all (pre ++ r :: post) raises = (pre ++ [r], true) ∧
      giiker_notify_state_change (pre ++ r :: post) raises = (pre ++ [r], false)) := by
  have part1 : ∀ cbs : List Nat, ∀ raises : Nat → Bool,
      (∀ c ∈ cbs, raises c = false) → notify_all cbs raises = (cbs, false) := by
    intro cbs raises
    induction cbs with
    | nil => intro _; rfl
    | cons c t ih =>
      intro h
      unfold notify_all
      rw [h c (List.mem_cons_self _ _)]
      simp only [Bool.false_eq_true, if_false]
      rw [ih fun x hx => h x (List.mem_cons_of_mem _ hx)]
  have part2 : ∀ pre : List Nat, ∀ r : Nat, ∀ post : List Nat, ∀ raises : Nat → Bool,
      (∀ c ∈ pre, raises c = false) → raises r = true →
      notify_all (pre ++ r :: post) raises = (pre ++ [r], true) := by
    intro pre r post raises
    induction pre with
    | nil =>
      intro _ hr
      rw [List.nil_append]
      simp [notify_all, hr]
    | cons c t ih =>
      intro h hr
      rw [List.cons_append]
      unfold notify_all
      rw [h c (List.mem_cons_self _ _)]
      simp only [Bool.false_eq_true, if_false]
      rw [ih (fun x hx => h x (List.mem_cons_of_mem _ hx)) hr]
      rfl
  refine ⟨part1, fun pre r post raises h hr => ⟨part2 pre r post raises h hr, ?_⟩⟩
  unfold giiker_notify_state_change
  rw [part2 pre r post raises h hr]

/-- Witness for C9 on concrete subscriber lists. -/
theorem c9_witness :
    notify_all [5, 7] (fun _ => false) = ([5, 7], false) ∧
    notify_all ([5] ++ 3 :: [8]) (fun c => c == 3) = ([5] ++ [3], true) ∧
    giiker_notify_state_change ([5] ++ 3 :: [8]) (fun c => c == 3) = ([5] ++ [3], false) :=
  ⟨c9_amended.1 [5, 7] _ (by decide),
   (c9_amended.2 [5] 3 [8] _ (by decide) (by decide)).1,
   (c9_amended.2 [5] 3 [8] _ (by decide) (by decide)).2⟩

/-- C9 counterexample: subscriber 1 is registered but never invoked when
subscriber 0, iterated first, raises. -/
theorem c9_counterexample :
    ¬ ((1 : Nat) ∈ (notify_all [0, 1] fun c => c == 0).1) := by
  decide

/-! ## Claim C7: advertisement matching -/

theorem hits_iff (name : Option (List Char)) (uuids : Option (List (List Char)))
    (m : CubeModel) :
    (starts_with_any (name.getD []) m.name_prefixes ||
      m.service_uuids.any fun uuid =>
        (uuids.getD []).any fun suuid => lower uuid == lower suuid) = true ↔
    hits name uuids m := by
  simp [starts_with_any, hits, List.any_eq_true, List.isPrefixOf_iff_prefix, beq_iff_eq]

/-- C7 (amended): matching is a single pass over the registry — the result is
the first entry that matches by name prefix or by case-insensitive
service-UUID intersection, with every earlier entry matching by neither; and
a `none` result means no entry matches by either test. -/
theorem c7_amended (name : Option (List Char)) (uuids : Option (List (List Char))) :
    (∀ m, match_advertisement name uuids = some m →
      ∃ k, ∃ hk : k < CUBE_MODELS.length, CUBE_MODELS.get ⟨k, hk⟩ = m ∧ hits name uuids m ∧
        ∀ j, ∀ hj : j < k, ¬ hits name uuids (CUBE_MODELS.get ⟨j, Nat.lt_trans hj hk⟩)) ∧
    (match_advertisement name uuids = none → ∀ m ∈ CUBE_MODELS, ¬ hits name uuids m) := by
  constructor
  · intro m h
    have h' : CUBE_MODELS.find? (fun model =>
        starts_with_any (name.getD []) model.name_prefixes ||
        model.service_uuids.any fun uuid =>
          (uuids.getD []).any fun suuid => lower uuid == lower suuid) = some m := h
    obtain ⟨k, hk, hget, hpa, hprev⟩ := find?_idx_spec _ _ _ h'
    refine ⟨k, hk, hget, (hits_iff name uuids m).1 hpa, fun j hj hcon => ?_⟩
    have hfalse := hprev j hj
    rw [(hits_iff name uuids _).2 hcon] at hfalse
    cases hfalse
  · intro h m hm hcon
    have h' : CUBE_MODELS.find? (fun model =>
        starts_with_any (name.getD []) model.name_prefixes ||
        model.service_uuids.any fun uuid =>
          (uuids.getD []).any fun suuid => lower uuid == lower suuid) = none := h
    have hfalse := List.find?_eq_none.1 h' m hm
    exact hfalse ((hits_iff name uuids m).2 hcon)

/-- Witness for C7: the advertisement name `"Gi"` matches the first registry
entry by name prefix. -/
theorem c7_amended_witness :
    ∃ k, ∃ hk : k < CUBE_MODELS.length,
      CUBE_MODELS.get ⟨k, hk⟩ =
        (⟨"giiker".toList, "Giiker".toList, "Giiker".toList,
          ["Gi".toList, "Hi-".toList, "HiG".toList, "Hi-G".toList],
          ["0000aadb-0000-1000-8000-00805f9b34fb".toList,
           "0000aaaa-0000-1000-8000-00805f9b34fb".toList]⟩ : CubeModel) ∧
      hits (some "Gi".toList) none
        (⟨"giiker".toList, "Giiker".toList, "Giiker".toList,
          ["Gi".toList, "Hi-".toList, "HiG".toList, "Hi-G".toList],
          ["0000aadb-0000-1000-8000-00805f9b34fb".toList,
           "0000aaaa-0000-1000-8000-00805f9b34fb".toList]⟩ : CubeModel) ∧
      ∀ j, ∀ hj : j < k, ¬ hits (some "Gi".toList) none
        (CUBE_MODELS.get ⟨j, Nat.lt_trans hj hk⟩) :=
  (c7_amended (some "Gi".toList) none).1 _ (by decide)

/-- C7 counterexample: an advertisement whose name matches the GAN entry but
whose service UUID matches the earlier Giiker entry is resolved to Giiker by
the source's single pass, while the claimed name-first two-pass rule would
resolve it to GAN. -/
theorem c7_counterexample :
    (match_advertisement (some "GAN".toList)
      (some ["0000aadb-0000-1000-8000-00805f9b34fb".toList])).map (·.cube_type) =
      some "giiker".toList ∧
    (spec_match_advertisement (some "GAN".toList)
      (some ["0000aadb-0000-1000-8000-00805f9b34fb".toList])).map (·.cube_type) =
      some "gan".toList ∧
    match_advertisement (some "GAN".toList)
        (some ["0000aadb-0000-1000-8000-00805f9b34fb".toList]) ≠
      spec_match_advertisement (some "GAN".toList)
        (some ["0000aadb-0000-1000-8000-00805f9b34fb".toList]) := by
  refine ⟨by decide, by decide, by decide⟩

/-! ## Claim C3: shape of stored state strings -/

theorem to_perm_length (c : CubieCube) : (to_perm c).length = 54 := by
  unfold to_perm
  rw [foldl_set_length, List.length_range]

theorem to_perm_values (c : CubieCube) : ∀ v ∈ to_perm c, v < 54 := by
  unfold to_perm
  apply foldl_invariant _ _ (fun l => ∀ v ∈ l, v < 54)
  · intro b w hw hP v hv
    rcases List.mem_or_eq_of_mem_set hv with hv' | rfl
    · exact hP v hv'
    · rcases List.mem_append.1 hw with hcw | hew
      · simp only [corner_writes, List.mem_flatMap, List.mem_range, List.mem_map] at hcw
        obtain ⟨cn, hcn, n, hn, rfl⟩ := hcw
        exact (by decide : ∀ a < 8, ∀ b < 3, cf a b < 54) _
          (Nat.lt_succ_of_le Nat.and_le_right) n hn
      · simp only [edge_writes, List.mem_flatMap, List.mem_range, List.mem_map] at hew
        obtain ⟨e, he, n, hn, rfl⟩ := hew
        by_cases hlt : (c.ea.getD e 0) >>> 1 < 12
        · exact (by decide : ∀ a < 12, ∀ b < 2, ef a b < 54) _ hlt n hn
        · show ef ((c.ea.getD e 0) >>> 1) n < 54
          unfold ef
          have h12 : e_facelet.length = 12 := rfl
          rw [List.getD_eq_default e_facelet _ (by omega)]
          simp
  · intro v hv
    exact List.mem_range.1 hv

theorem to_perm_center (c : CubieCube) (p : Nat)
    (hp : p ∈ ([4, 13, 22, 31, 40, 49] : List Nat)) :
    (to_perm c).getD p 0 = p := by
  unfold to_perm
  rw [foldl_set_getD_not_mem]
  · exact getD_range 54 p 0 ((by decide : ∀ q ∈ ([4, 13, 22, 31, 40, 49] : List Nat), q < 54) p hp)
  · intro w hw
    rcases List.mem_append.1 hw with hcw | hew
    · simp only [corner_writes, List.mem_flatMap, List.mem_range, List.mem_map] at hcw
      obtain ⟨cn, hcn, n, hn, rfl⟩ := hcw
      intro heq
      exact (by decide : ∀ a < 8, ∀ b < 3, cf a b ∉ ([4, 13, 22, 31, 40, 49] : List Nat))
        cn hcn _ (Nat.mod_lt _ (by omega)) (heq ▸ hp)
    · simp only [edge_writes, List.mem_flatMap, List.mem_range, List.mem_map] at hew
      obtain ⟨e, he, n, hn, rfl⟩ := hew
      intro heq
      exact (by decide : ∀ a < 12, ∀ b < 2, ef a b ∉ ([4, 13, 22, 31, 40, 49] : List Nat))
        e he _ (Nat.mod_lt _ (by omega)) (heq ▸ hp)

theorem to_facelet_ok (c : CubieCube) :
    facelet_string_ok (['U', 'R', 'F', 'D', 'L', 'B'] : List Char) (to_facelet c) := by
  have hlen : (to_facelet c).length = 54 := by
    unfold to_facelet
    rw [List.length_map, to_perm_length]
  have hcent : ∀ p ∈ ([4, 13, 22, 31, 40, 49] : List Nat),
      (to_facelet c).getD p ' ' = face_chars.getD (p / 9) '?' := by
    intro p hp
    unfold to_facelet
    rw [getD_map_lt _ _ p ' ' 0 (by rw [to_perm_length]; exact
      (by decide : ∀ q ∈ ([4, 13, 22, 31, 40, 49] : List Nat), q < 54) p hp)]
    rw [to_perm_center c p hp]
  refine ⟨hlen, ?_, ?_, ?_, ?_, ?_, ?_, ?_⟩
  · intro ch hch
    unfold to_facelet at hch
    obtain ⟨v, hv, rfl⟩ := List.mem_map.1 hch
    have hv54 : v < 54 := to_perm_values c v hv
    exact (by decide : ∀ k < 6, face_chars.getD k '?' ∈ (['U', 'R', 'F', 'D', 'L', 'B'] : List Char))
      (v / 9) (by omega)
  · rw [hcent 4 (by decide)]; decide
  · rw [hcent 13 (by decide)]; decide
  · rw [hcent 22 (by decide)]; decide
  · rw [hcent 31 (by decide)]; decide
  · rw [hcent 40 (by decide)]; decide
  · rw [hcent 49 (by decide)]; decide

theorem face_of_color_mem (name : List Char) :
    face_of_color name ∈ (['U', 'R', 'F', 'D', 'L', 'B', '?'] : List Char) := by
  unfold face_of_color
  cases hf : color_face_mapping.find? (fun p => p.1 == name) with
  | none => decide
  | some p =>
    have hp : p ∈ color_face_mapping := List.mem_of_find?_eq_some hf
    have hall : ∀ q ∈ color_face_mapping,
        q.2 ∈ (['U', 'R', 'F', 'D', 'L', 'B', '?'] : List Char) := by decide
    simpa using hall p hp

theorem qfaces_set (faces : List (Option Char)) (i : Nat) (ch : Char)
    (hch : ch ∈ (['U', 'R', 'F', 'D', 'L', 'B', '?'] : List Char)) (hQ : Qfaces faces) :
    Qfaces (faces.set i (some ch)) := by
  refine ⟨by rw [List.length_set]; exact hQ.1, fun o ho => ?_⟩
  rcases List.mem_or_eq_of_mem_set ho with h | rfl
  · exact hQ.2 o h
  · exact hch

theorem giiker_final_ok (F2 : List (Option Char)) (hQ2 : Qfaces F2) :
    facelet_string_ok (['U', 'R', 'F', 'D', 'L', 'B', '?'] : List Char)
      (((((((F2.set 4 (some 'U')).set 13 (some 'R')).set 22 (some 'F')).set 31
        (some 'D')).set 40 (some 'L')).set 49 (some 'B')).map fun face => face.getD '?') := by
  have hQ3 : Qfaces (((((((F2.set 4 (some 'U')).set 13 (some 'R')).set 22 (some 'F')).set 31
      (some 'D')).set 40 (some 'L')).set 49 (some 'B'))) :=
    qfaces_set _ _ _ (by decide) (qfaces_set _ _ _ (by decide) (qfaces_set _ _ _
      (by decide) (qfaces_set _ _ _ (by decide) (qfaces_set _ _ _ (by decide)
      (qfaces_set _ _ _ (by decide) hQ2)))))
  have hlen : F2.length = 54 := hQ2.1
  have hc4 : (((((((F2.set 4 (some 'U')).set 13 (some 'R')).set 22 (some 'F')).set 31
      (some 'D')).set 40 (some 'L')).set 49 (some 'B'))).getD 4 none = some 'U' := by
    rw [getD_set_ne _ _ _ _ _ (by decide), getD_set_ne _ _ _ _ _ (by decide),
      getD_set_ne _ _ _ _ _ (by decide), getD_set_ne _ _ _ _ _ (by decide),
      getD_set_ne _ _ _ _ _ (by decide)]
    exact getD_set_self _ _ _ _ (by omega)
  have hc13 : (((((((F2.set 4 (some 'U')).set 13 (some 'R')).set 22 (some 'F')).set 31
      (some 'D')).set 40 (some 'L')).set 49 (some 'B'))).getD 13 none = some 'R' := by
    rw [getD_set_ne _ _ _ _ _ (by decide), getD_set_ne _ _ _ _ _ (by decide),
      getD_set_ne _ _ _ _ _ (by decide), getD_set_ne _ _ _ _ _ (by decide)]
    exact getD_set_self _ _ _ _ (by rw [List.length_set]; omega)
  have hc22 : (((((((F2.set 4 (some 'U')).set 13 (some 'R')).set 22 (some 'F')).set 31
      (some 'D')).set 40 (some 'L')).set 49 (some 'B'))).getD 22 none = some 'F' := by
    rw [getD_set_ne _ _ _ _ _ (by decide), getD_set_ne _ _ _ _ _ (by decide),
      getD_set_ne _ _ _ _ _ (by decide)]
    exact getD_set_self _ _ _ _ (by rw [List.length_set, List.length_set]; omega)
  have hc31 : (((((((F2.set 4 (some 'U')).set 13 (some 'R')).set 22 (some 'F')).set 31
      (some 'D')).set 40 (some 'L')).set 49 (some 'B'))).getD 31 none = some 'D' := by
    rw [getD_set_ne _ _ _ _ _ (by decide), getD_set_ne _ _ _ _ _ (by decide)]
    exact getD_set_self _ _ _ _
      (by rw [List.length_set, List.length_set, List.length_set]; omega)
  have hc40 : (((((((F2.set 4 (some 'U')).set 13 (some 'R')).set 22 (some 'F')).set 31
      (some 'D')).set 40 (some 'L')).set 49 (some 'B'))).getD 40 none = some 'L' := by
    rw [getD_set_ne _ _ _ _ _ (by decide)]
    exact getD_set_self _ _ _ _
      (by rw [List.length_set, List.length_set, List.length_set, List.length_set]; omega)
  have hc49 : (((((((F2.set 4 (some 'U')).set 13 (some 'R')).set 22 (some 'F')).set 31
      (some 'D')).set 40 (some 'L')).set 49 (some 'B'))).getD 49 none = some 'B' :=
    getD_set_self _ _ _ _ (by
      rw [List.length_set, List.length_set, List.length_set, List.length_set, List.length_set]
      omega)
  have hlen3 := hQ3.1
  refine ⟨by rw [List.length_map]; exact hlen3, ?_, ?_, ?_, ?_, ?_, ?_, ?_⟩
  · intro ch hch
    obtain ⟨o, ho, rfl⟩ := List.mem_map.1 hch
    exact hQ3.2 o ho
  · rw [getD_map_lt _ _ 4 ' ' none (by omega), hc4]; rfl
  · rw [getD_map_lt _ _ 13 ' ' none (by omega), hc13]; rfl
  · rw [getD_map_lt _ _ 22 ' ' none (by omega), hc22]; rfl
  · rw [getD_map_lt _ _ 31 ' ' none (by omega), hc31]; rfl
  · rw [getD_map_lt _ _ 40 ' ' none (by omega), hc40]; rfl
  · rw [getD_map_lt _ _ 49 ' ' none (by omega), hc49]; rfl

theorem qfaces_giiker_inner (l : List (Nat × Nat)) (mapped : List Nat)
    (faces : List (Option Char)) (hQ : Qfaces faces) :
    Qfaces (l.foldl
      (fun faces fc =>
        let (face_index, cube_index) := fc
        if mapped.length ≤ face_index then faces
        else faces.set cube_index
          (some (face_of_color (giiker_colors.getD (mapped.getD face_index 0) []))))
      faces) := by
  apply foldl_invariant _ _ Qfaces _ _ hQ
  intro b a _ hb
  obtain ⟨face_index, cube_index⟩ := a
  by_cases hc : mapped.length ≤ face_index
  · simpa [hc] using hb
  · simpa [hc] using qfaces_set b cube_index _ (face_of_color_mem _) hb

/-- C3 (amended): the Giiker state builder always yields a 54-character
string over the seven-letter alphabet (the six faces plus the unknown-tile
placeholder) with the six centers fixed; `to_facelet` yields a 54-character
six-letter string with fixed centers; `update_cube_state` stores the given
string verbatim. -/
theorem c3_amended :
    (∀ state : GiikerState, state.corner_positions.length ≤ 8 →
      state.edge_positions.length ≤ 12 →
      facelet_string_ok (['U', 'R', 'F', 'D', 'L', 'B', '?'] : List Char)
        (giiker_build_state state).1) ∧
    (∀ c : CubieCube,
      facelet_string_ok (['U', 'R', 'F', 'D', 'L', 'B'] : List Char) (to_facelet c)) ∧
    (∀ data : CubeData, ∀ s : List Char, (update_cube_state data s).state_string = some s) := by
  refine ⟨?_, fun c => to_facelet_ok c, fun data s => rfl⟩
  intro state _ _
  unfold giiker_build_state
  have hQ0 : Qfaces (List.replicate 54 none) := by
    refine ⟨by simp, fun o ho => ?_⟩
    rw [List.eq_of_mem_replicate ho]
    decide
  have hQc : ∀ faces0 : List (Option Char), Qfaces faces0 →
      Qfaces (state.corner_positions.enum.foldl
        (fun faces ip =>
          let (index, position) := ip
          if position == 0 || position > CORNER_COLORS.length then faces
          else if state.corner_orientations.length ≤ index then faces
          else
            let mapped := map_corner_colors (CORNER_COLORS.getD (position - 1) [])
              (state.corner_orientations.getD index 0) index
            (CORNER_FACE_INDICES.getD index []).enum.foldl
              (fun faces fc =>
                let (face_index, cube_index) := fc
                if mapped.length ≤ face_index then faces
                else faces.set cube_index
                  (some (face_of_color (giiker_colors.getD (mapped.getD face_index 0) []))))
              faces)
        faces0) := by
    intro faces0 hQ
    apply foldl_invariant _ _ Qfaces _ _ hQ
    intro b a _ hb
    obtain ⟨index, position⟩ := a
    by_cases h1 : (position == 0 || position > CORNER_COLORS.length) = true
    · simpa [h1] using hb
    · by_cases h2 : state.corner_orientations.length ≤ index
      · simp only [Bool.not_eq_true] at h1
        simpa [h1, h2] using hb
      · simp only [Bool.not_eq_true] at h1
        simpa [h1, h2] using qfaces_giiker_inner _ _ b hb
  have hQe : ∀ faces0 : List (Option Char), Qfaces faces0 →
      Qfaces (state.edge_positions.enum.foldl
        (fun faces ip =>
          let (index, position) := ip
          if position == 0 || position > EDGE_COLORS.length then faces
          else if state.edge_orientations.length ≤ index then faces
          else
            let mapped := map_edge_colors (EDGE_COLORS.getD (position - 1) [])
              (state.edge_orientations.getD index false)
            (EDGE_FACE_INDICES.getD index []).enum.foldl
              (fun faces fc =>
                let (face_index, cube_index) := fc
                if mapped.length ≤ face_index then faces
                else faces.set cube_index
                  (some (face_of_color (giiker_colors.getD (mapped.getD face_index 0) []))))
              faces)
        faces0) := by
    intro faces0 hQ
    apply foldl_invariant _ _ Qfaces _ _ hQ
    intro b a _ hb
    obtain ⟨index, position⟩ := a
    by_cases h1 : (position == 0 || position > EDGE_COLORS.length) = true
    · simpa [h1] using hb
    · by_cases h2 : state.edge_orientations.length ≤ index
      · simp only [Bool.not_eq_true] at h1
        simpa [h1, h2] using hb
      · simp only [Bool.not_eq_true] at h1
        simpa [h1, h2] using qfaces_giiker_inner _ _ b hb
  exact giiker_final_ok _ (hQe _ (hQc _ hQ0))

/-- Witness for C3 on the empty Giiker state, the solved cube, and a tiny
stored string. -/
theorem c3_amended_witness :
    facelet_string_ok (['U', 'R', 'F', 'D', 'L', 'B', '?'] : List Char)
      (giiker_build_state {}).1 ∧
    facelet_string_ok (['U', 'R', 'F', 'D', 'L', 'B'] : List Char)
      (to_facelet CubieCube.mk0) ∧
    (update_cube_state {} ['U']).state_string = some ['U'] :=
  ⟨c3_amended.1 {} (by decide) (by decide), c3_amended.2.1 CubieCube.mk0,
   c3_amended.2.2 {} ['U']⟩

/-- C3 counterexample: a 16-byte all-zero Giiker payload makes the adapter
store a present `state_string` that contains the placeholder character `'?'`,
outside the claimed six-letter alphabet. -/
theorem c3_counterexample :
    ((parse_cube_value {} (List.replicate 16 0)).1.state_string).isSome = true ∧
    ¬ (∀ ch ∈ ((parse_cube_value {} (List.replicate 16 0)).1.state_string).getD [],
        ch ∈ (['U', 'R', 'F', 'D', 'L', 'B'] : List Char)) := by
  constructor
  · decide
  · decide

/-! ## Claims C4 and C10: GAN move-counter handling -/

theorem foldl_append_length_ge {α β : Type} (l : List α) (p : α → Prop) [DecidablePred p]
    (g : α → β) :
    ∀ acc : List β,
      acc.length ≤ (l.foldl (fun ms a => if p a then ms else ms ++ [g a]) acc).length := by
  induction l with
  | nil => intro acc; exact Nat.le_refl _
  | cons a t ih =>
    intro acc
    rw [List.foldl_cons]
    by_cases hp : p a
    · rw [if_pos hp]; exact ih acc
    · rw [if_neg hp]
      calc acc.length ≤ (acc ++ [g a]).length := by rw [List.length_append]; omega
        _ ≤ _ := ih _

theorem foldl_append_ne_nil {α β : Type} (l : List α) (p : α → Prop) [DecidablePred p]
    (g : α → β) :
    ∀ acc : List β, (∃ a ∈ l, ¬ p a) →
      l.foldl (fun ms a => if p a then ms else ms ++ [g a]) acc ≠ [] := by
  induction l with
  | nil => rintro acc ⟨a, ha, _⟩; cases ha
  | cons a t ih =>
    rintro acc ⟨x, hx, hpx⟩
    rw [List.foldl_cons]
    by_cases hp : p a
    · rw [if_pos hp]
      rcases List.mem_cons.1 hx with rfl | hxt
      · exact absurd hp hpx
      · exact ih acc ⟨x, hxt, hpx⟩
    · rw [if_neg hp]
      have := foldl_append_length_ge t p g (acc ++ [g a])
      intro hnil
      rw [hnil] at this
      simp [List.length_append] at this

theorem foldl_append_mem {α β : Type} (l : List α) (p : α → Prop) [DecidablePred p]
    (g : α → β) (Q : β → Prop) (hg : ∀ a ∈ l, ¬ p a → Q (g a)) :
    ∀ acc : List β, (∀ b ∈ acc, Q b) →
      ∀ b ∈ l.foldl (fun ms a => if p a then ms else ms ++ [g a]) acc, Q b := by
  induction l with
  | nil => intro acc hacc; exact hacc
  | cons a t ih =>
    intro acc hacc b hb
    rw [List.foldl_cons] at hb
    by_cases hp : p a
    · rw [if_pos hp] at hb
      exact ih (fun x hx => hg x (List.mem_cons_of_mem _ hx)) acc hacc b hb
    · rw [if_neg hp] at hb
      refine ih (fun x hx => hg x (List.mem_cons_of_mem _ hx)) (acc ++ [g a]) ?_ b hb
      intro x hx
      rcases List.mem_append.1 hx with h | h
      · exact hacc x h
      · rw [List.mem_singleton.1 h]
        exact hg a (List.mem_cons_self _ _) hp

theorem gan_fold_spec (l : List (List Char))
    (hmv : ∀ mv ∈ l, (urfdlb_find (mv.headD ' ')).isSome = true) :
    ∀ acc : GanState × List (List Char),
      (l.foldl gan_move_body acc).2.length = acc.2.length + l.length ∧
      (l = [] ∨ (l.foldl gan_move_body acc).1.data.last_update = true) := by
  induction l with
  | nil => intro acc; exact ⟨rfl, Or.inl rfl⟩
  | cons mv t ih =>
    intro acc
    obtain ⟨s0, f0⟩ := acc
    obtain ⟨ax, hax⟩ := Option.isSome_iff_exists.1 (hmv mv (List.mem_cons_self _ _))
    have hbody : gan_move_body (s0, f0) mv =
        ({ s0 with
            cube := apply_move_index s0.cube
              (ax * 3 + if mv.getLast? == some primeChar then 2 else 0),
            data := update_cube_state { s0.data with last_move := some mv }
              (to_facelet (apply_move_index s0.cube
                (ax * 3 + if mv.getLast? == some primeChar then 2 else 0))) },
          f0 ++ [mv]) := by
      rw [List.headD_eq_head?_getD] at hax
      simp [gan_move_body, hax]
    have iht := ih (fun x hx => hmv x (List.mem_cons_of_mem _ hx))
    rw [List.foldl_cons, hbody]
    refine ⟨?_, ?_⟩
    · rw [(iht _).1]
      simp only [List.length_append, List.length_cons, List.length_nil]
      omega
    · right
      rcases (iht ({ s0 with
          cube := apply_move_index s0.cube
            (ax * 3 + if mv.getLast? == some primeChar then 2 else 0),
          data := update_cube_state { s0.data with last_move := some mv }
            (to_facelet (apply_move_index s0.cube
              (ax * 3 + if mv.getLast? == some primeChar then 2 else 0))) },
          f0 ++ [mv])).2 with ht | ht
      · subst ht
        simp [update_cube_state]
      · exact ht

theorem gan_apply_moves_spec (s : GanState) (moves : List (List Char))
    (hmv : ∀ mv ∈ moves, (urfdlb_find (mv.headD ' ')).isSome = true)
    (hne : moves ≠ []) :
    (gan_apply_moves s moves).2.1.length = moves.length ∧
    (gan_apply_moves s moves).2.1 ≠ [] ∧
    (gan_apply_moves s moves).2.2 = 1 ∧
    (gan_apply_moves s moves).1.data.last_update = true := by
  unfold gan_apply_moves
  rw [if_neg (by simp [List.isEmpty_iff, hne])]
  have hspec := gan_fold_spec moves.reverse
    (fun mv hmvr => hmv mv (List.mem_reverse.1 hmvr)) (s, [])
  have hlen : (moves.reverse.foldl gan_move_body (s, [])).2.length = moves.length := by
    rw [hspec.1]
    simp
  have hnenil : (moves.reverse.foldl gan_move_body (s, [])).2 ≠ [] := by
    intro hnil
    rw [hnil] at hlen
    exact hne (List.length_eq_zero.1 hlen.symm)
  have hupd : (moves.reverse.foldl gan_move_body (s, [])).1.data.last_update = true := by
    rcases hspec.2 with h | h
    · exact absurd (List.reverse_eq_nil_iff.1 h) hne
    · exact h
  exact ⟨hlen, hnenil, rfl, hupd⟩

theorem v2_moves_mem (bits : List Nat) :
    ∀ mv ∈ (List.range 7).foldl
      (fun ms i =>
        let m := bit_slice bits (12 + i * 5) (17 + i * 5)
        if 12 ≤ m then ms
        else
          let face := face_chars.getD (m >>> 1) '?'
          let suffix : List Char := if m &&& 1 == 1 then [primeChar] else []
          ms ++ [face :: suffix])
      [],
      (urfdlb_find (mv.headD ' ')).isSome = true := by
  refine foldl_append_mem (List.range 7)
    (fun i => 12 ≤ bit_slice bits (12 + i * 5) (17 + i * 5))
    (fun i => face_chars.getD (bit_slice bits (12 + i * 5) (17 + i * 5) >>> 1) '?' ::
      (if bit_slice bits (12 + i * 5) (17 + i * 5) &&& 1 == 1 then [primeChar] else []))
    (fun mv => (urfdlb_find (mv.headD ' ')).isSome = true) ?_ [] (by intro b hb; cases hb)
  intro i _ hlt
  push_neg at hlt
  rw [List.headD_cons]
  have hs : bit_slice bits (12 + i * 5) (17 + i * 5) >>> 1 < 6 := by
    rw [Nat.shiftRight_one]
    omega
  exact (by decide : ∀ k < 6, (urfdlb_find (face_chars.getD k '?')).isSome = true) _ hs

theorem gan_v1_fold_spec (decoded : List Nat) :
    ∀ n : Nat, ∀ s0 : GanState, ∀ f0 : List (List Char),
      ((List.range n).foldl (gan_v1_body decoded) (s0, f0)).2.length = f0.length + n ∧
      ((List.range n).foldl (gan_v1_body decoded) (s0, f0)).1.move_cnt = s0.move_cnt ∧
      (n = 0 ∨
        ((List.range n).foldl (gan_v1_body decoded) (s0, f0)).1.data.last_update = true) := by
  intro n
  induction n with
  | zero => intro s0 f0; exact ⟨rfl, rfl, Or.inl rfl⟩
  | succ n ih =>
    intro s0 f0
    rw [List.range_succ, List.foldl_append, List.foldl_cons, List.foldl_nil]
    rcases hF : (List.range n).foldl (gan_v1_body decoded) (s0, f0) with ⟨s1, f1⟩
    have ih' := ih s0 f0
    rw [hF] at ih'
    refine ⟨?_, ?_, Or.inr ?_⟩
    · show (gan_v1_body decoded (s1, f1) n).2.length = f0.length + (n + 1)
      have hb : (gan_v1_body decoded (s1, f1) n).2.length = f1.length + 1 := by
        simp [gan_v1_body]
      rw [hb, ih'.1]
      omega
    · show (gan_v1_body decoded (s1, f1) n).1.move_cnt = s0.move_cnt
      have hb : (gan_v1_body decoded (s1, f1) n).1.move_cnt = s1.move_cnt := by
        simp [gan_v1_body]
      rw [hb, ih'.2.1]
    · show (gan_v1_body decoded (s1, f1) n).1.data.last_update = true
      simp [gan_v1_body, update_cube_state]

/-- C4 (amended): for the GAN adapter, a mode-2 (v2) move frame whose counter
equals the stored counter is fully suppressed (state unchanged, no movement
callbacks, no state broadcast), and replaying any mode-2 frame immediately
after it was handled is always suppressed; a first frame is processed (fires
movement callbacks and mutates CubeState) only when the stored counter is
initialized (not the −1 sentinel), differs from the frame counter, and the
frame carries at least one valid move entry.  For the v1 protocol, which has
no sentinel, the first frame with a differing counter fires six movement
callbacks and mutates CubeState, and the identical frame replayed is
suppressed. -/
theorem c4_amended :
    (∀ s : GanState, ∀ frame : List Nat,
      bit_slice (bits_of_bytes frame) 0 4 = 2 →
      s.move_cnt = (bit_slice (bits_of_bytes frame) 4 12 : Nat) →
      parse_v2 s frame = ⟨s, [], 0, false⟩) ∧
    (∀ s : GanState, ∀ frame : List Nat,
      bit_slice (bits_of_bytes frame) 0 4 = 2 →
      parse_v2 (parse_v2 s frame).state frame = ⟨(parse_v2 s frame).state, [], 0, false⟩) ∧
    (∀ s : GanState, ∀ frame : List Nat,
      bit_slice (bits_of_bytes frame) 0 4 = 2 →
      s.move_cnt ≠ (bit_slice (bits_of_bytes frame) 4 12 : Nat) →
      s.move_cnt ≠ -1 →
      (∃ i < 7, bit_slice (bits_of_bytes frame) (12 + i * 5) (17 + i * 5) < 12) →
      (parse_v2 s frame).fired ≠ [] ∧
      (parse_v2 s frame).state.move_cnt = (bit_slice (bits_of_bytes frame) 4 12 : Nat) ∧
      (parse_v2 s frame).state.data.last_update = true ∧
      (parse_v2 s frame).notified = 1) ∧
    (∀ s : GanState, ∀ decoded : List Nat,
      s.move_cnt = (decoded.getD 12 0 : Nat) → parse_v1 s decoded = ⟨s, [], 0, false⟩) ∧
    (∀ s : GanState, ∀ decoded : List Nat,
      (∀ i < 6, decoded.getD (13 + i) 0 < 18) →
      s.move_cnt ≠ (decoded.getD 12 0 : Nat) →
      (parse_v1 s decoded).fired.length = 6 ∧
      (parse_v1 s decoded).state.data.last_update = true ∧
      (parse_v1 s decoded).state.move_cnt = (decoded.getD 12 0 : Nat) ∧
      parse_v1 (parse_v1 s decoded).state decoded =
        ⟨(parse_v1 s decoded).state, [], 0, false⟩) := by
  have part_a : ∀ s : GanState, ∀ frame : List Nat,
      bit_slice (bits_of_bytes frame) 0 4 = 2 →
      s.move_cnt = (bit_slice (bits_of_bytes frame) 4 12 : Nat) →
      parse_v2 s frame = ⟨s, [], 0, false⟩ := by
    intro s frame hmode hcnt
    obtain ⟨mc, cube, data⟩ := s
    have hcnt' : mc = ((bit_slice (bits_of_bytes frame) 4 12 : Nat) : Int) := hcnt
    subst hcnt'
    simp [parse_v2, hmode]
  have hcnt_after : ∀ s : GanState, ∀ frame : List Nat,
      bit_slice (bits_of_bytes frame) 0 4 = 2 →
      (parse_v2 s frame).state.move_cnt = (bit_slice (bits_of_bytes frame) 4 12 : Nat) := by
    intro s frame hmode
    by_cases hs : ((bit_slice (bits_of_bytes frame) 4 12 : Int) == s.move_cnt
        || s.move_cnt == -1) = true
    · simp [parse_v2, hmode, hs]
    · simp [parse_v2, hmode, hs]
  have part_d : ∀ s : GanState, ∀ decoded : List Nat,
      s.move_cnt = (decoded.getD 12 0 : Nat) → parse_v1 s decoded = ⟨s, [], 0, false⟩ := by
    intro s decoded hcnt
    obtain ⟨mc, cube, data⟩ := s
    have hcnt' : mc = ((decoded.getD 12 0 : Nat) : Int) := hcnt
    subst hcnt'
    simp [parse_v1]
  refine ⟨part_a, ?_, ?_, part_d, ?_⟩
  · intro s frame hmode
    exact part_a _ frame hmode (hcnt_after s frame hmode)
  · intro s frame hmode hne1 hne2 hvalid
    have hs : ((bit_slice (bits_of_bytes frame) 4 12 : Int) == s.move_cnt
        || s.move_cnt == -1) = false := by
      rw [Bool.or_eq_false_iff, beq_eq_false_iff_ne, beq_eq_false_iff_ne]
      exact ⟨fun h => hne1 h.symm, hne2⟩
    obtain ⟨i, hi7, hiv⟩ := hvalid
    have hMne : (List.range 7).foldl
        (fun ms i =>
          let m := bit_slice (bits_of_bytes frame) (12 + i * 5) (17 + i * 5)
          if 12 ≤ m then ms
          else
            let face := face_chars.getD (m >>> 1) '?'
            let suffix : List Char := if m &&& 1 == 1 then [primeChar] else []
            ms ++ [face :: suffix])
        [] ≠ [] :=
      foldl_append_ne_nil (List.range 7)
        (fun i => 12 ≤ bit_slice (bits_of_bytes frame) (12 + i * 5) (17 + i * 5))
        (fun i =>
          face_chars.getD (bit_slice (bits_of_bytes frame) (12 + i * 5) (17 + i * 5) >>> 1) '?' ::
          (if bit_slice (bits_of_bytes frame) (12 + i * 5) (17 + i * 5) &&& 1 == 1
            then [primeChar] else []))
        [] ⟨i, List.mem_range.2 hi7, by omega⟩
    obtain ⟨hlen, hnenil, hnot, hupd⟩ :=
      gan_apply_moves_spec s _ (v2_moves_mem (bits_of_bytes frame)) hMne
    refine ⟨?_, hcnt_after s frame hmode, ?_, ?_⟩
    · simp only [parse_v2, hmode, hs]
      simp only [beq_self_eq_true, if_true, Bool.false_eq_true, if_false]
      exact hnenil
    · simp only [parse_v2, hmode, hs]
      simp only [beq_self_eq_true, if_true, Bool.false_eq_true, if_false]
      exact hupd
    · simp only [parse_v2, hmode, hs]
      simp only [beq_self_eq_true, if_true, Bool.false_eq_true, if_false]
      exact hnot
  · intro s decoded _ hne
    have hs : ((decoded.getD 12 0 : Int) == s.move_cnt) = false := by
      rw [beq_eq_false_iff_ne]
      exact fun h => hne h.symm
    have hspec := gan_v1_fold_spec decoded 6 { s with move_cnt := (decoded.getD 12 0 : Nat) } []
    have hfired : (parse_v1 s decoded).fired.length = 6 := by
      simp only [parse_v1, hs, Bool.false_eq_true, if_false]
      exact hspec.1
    have hupd : (parse_v1 s decoded).state.data.last_update = true := by
      simp only [parse_v1, hs, Bool.false_eq_true, if_false]
      rcases hspec.2.2 with h | h
      · cases h
      · exact h
    have hmc : (parse_v1 s decoded).state.move_cnt = (decoded.getD 12 0 : Nat) := by
      simp only [parse_v1, hs, Bool.false_eq_true, if_false]
      exact hspec.2.1
    exact ⟨hfired, hupd, hmc, part_d _ decoded hmc⟩

/-- Witness for C4 on concrete v2 and v1 frames. -/
theorem c4_amended_witness :
    parse_v2 { initial_gan_state with move_cnt := 5 } ([0x20, 0x50] ++ List.replicate 18 0) =
      ⟨{ initial_gan_state with move_cnt := 5 }, [], 0, false⟩ ∧
    (parse_v2 { initial_gan_state with move_cnt := 7 }
      ([0x20, 0x50] ++ List.replicate 18 0)).fired ≠ [] ∧
    parse_v1 { initial_gan_state with move_cnt := 0 } (List.replicate 19 0) =
      ⟨{ initial_gan_state with move_cnt := 0 }, [], 0, false⟩ ∧
    (parse_v1 initial_gan_state (List.replicate 19 0)).fired.length = 6 :=
  ⟨c4_amended.1 _ _ (by decide) (by decide),
   (c4_amended.2.2.1 _ _ (by decide) (by decide) (by decide) ⟨0, by decide, by decide⟩).1,
   c4_amended.2.2.2.1 _ _ (by decide),
   (c4_amended.2.2.2.2 _ _ (by decide) (by decide)).1⟩

/-- C4 counterexample: a freshly constructed v2 adapter (stored counter at
the −1 sentinel) suppresses the FIRST of two identical move frames as well:
it stores the counter but fires no movement callback, makes no state-change
broadcast, and leaves CubeData untouched, contradicting the claim that the
first of two equal-counter frames always mutates state and fires movement
callbacks. -/
theorem c4_counterexample :
    initial_gan_state.move_cnt = -1 ∧
    (parse_v2 initial_gan_state ([0x20, 0x50] ++ List.replicate 18 0)).fired = [] ∧
    (parse_v2 initial_gan_state ([0x20, 0x50] ++ List.replicate 18 0)).notified = 0 ∧
    (parse_v2 initial_gan_state ([0x20, 0x50] ++ List.replicate 18 0)).state.data =
      initial_gan_state.data := by
  refine ⟨rfl, by decide, by decide, by decide⟩

/-- C10: for GAN v2, v3 and v4, when the stored move counter is the −1
construction sentinel, a move frame only stores the frame's counter as the
new baseline: the cube and `CubeData` are unchanged and no movement or
state-change callbacks fire. -/
theorem c10_uninitialized_sentinel :
    initial_gan_state.move_cnt = -1 ∧
    (∀ s : GanState, ∀ frame : List Nat, s.move_cnt = -1 →
      bit_slice (bits_of_bytes frame) 0 4 = 2 →
      parse_v2 s frame =
        ⟨{ s with move_cnt := (bit_slice (bits_of_bytes frame) 4 12 : Nat) }, [], 0, false⟩) ∧
    (∀ s : GanState, ∀ frame : List Nat, s.move_cnt = -1 →
      bit_slice (bits_of_bytes frame) 0 8 = 0x55 →
      bit_slice (bits_of_bytes frame) 8 16 = 1 →
      parse_v3 s frame =
        ⟨{ s with move_cnt := (bits_val (((bits_of_bytes frame).drop 64).take 8 ++
            ((bits_of_bytes frame).drop 56).take 8) : Nat) }, [], 0, false⟩) ∧
    (∀ s : GanState, ∀ frame : List Nat, s.move_cnt = -1 →
      bit_slice (bits_of_bytes frame) 0 8 = 0x01 →
      parse_v4 s frame =
        ⟨{ s with move_cnt := (bits_val (((bits_of_bytes frame).drop 56).take 8 ++
            ((bits_of_bytes frame).drop 48).take 8) : Nat) }, [], 0, false⟩) := by
  refine ⟨rfl, ?_, ?_, ?_⟩
  · intro s frame hs hmode
    simp [parse_v2, hmode, hs]
  · intro s frame hs hheader hmode
    simp [parse_v3, hheader, hmode, hs]
  · intro s frame hs hmode
    simp [parse_v4, hmode, hs]

/-- Witness for C10 on concrete v2, v3 and v4 move frames. -/
theorem c10_uninitialized_sentinel_witness :
    initial_gan_state.move_cnt = -1 ∧
    parse_v2 initial_gan_state ([0x20, 0x50] ++ List.replicate 18 0) =
      ⟨{ initial_gan_state with move_cnt := 5 }, [], 0, false⟩ ∧
    parse_v3 initial_gan_state ([0x55, 0x01] ++ List.replicate 14 0) =
      ⟨{ initial_gan_state with move_cnt := 0 }, [], 0, false⟩ ∧
    parse_v4 initial_gan_state ([0x01] ++ List.replicate 19 0) =
      ⟨{ initial_gan_state with move_cnt := 0 }, [], 0, false⟩ :=
  ⟨c10_uninitialized_sentinel.1,
   (c10_uninitialized_sentinel.2.1 initial_gan_state _ rfl (by decide)).trans (by decide),
   (c10_uninitialized_sentinel.2.2.1 initial_gan_state _ rfl (by decide) (by decide)).trans
     (by decide),
   (c10_uninitialized_sentinel.2.2.2 initial_gan_state _ rfl (by decide)).trans (by decide)⟩

/-! ## Claim C8: CRC16/MODBUS -/

theorem crc_round_lt (s : Nat) (h : s < 65536) : crc_round s < 65536 := by
  unfold crc_round
  by_cases hp : (s &&& 0x1 == 1) = true
  · rw [if_pos hp, Nat.shiftRight_one]
    exact lt_of_lt_of_eq
      (Nat.xor_lt_two_pow (n := 16) (by omega) (by norm_num)) (by norm_num)
  · rw [if_neg hp, Nat.shiftRight_one]
    omega

theorem crc_round_inj (s t : Nat) (hs : s < 65536) (ht : t < 65536)
    (h : crc_round s = crc_round t) : s = t := by
  have hs1 : s &&& 1 = s % 2 := Nat.and_one_is_mod s
  have ht1 : t &&& 1 = t % 2 := Nat.and_one_is_mod t
  have hxbit : ∀ x : Nat, x < 32768 → (x ^^^ 0xA001).testBit 15 = true := by
    intro x hx
    rw [Nat.testBit_xor, Nat.testBit_eq_false_of_lt (by norm_num; omega)]
    decide
  have hxor_cancel : ∀ x y : Nat, x ^^^ 0xA001 = y ^^^ 0xA001 → x = y := by
    intro x y hxy
    have := congrArg (fun z => z ^^^ 0xA001) hxy
    simpa [Nat.xor_assoc] using this
  unfold crc_round at h
  by_cases hps : (s &&& 0x1 == 1) = true <;> by_cases hpt : (t &&& 0x1 == 1) = true
  · rw [if_pos hps, if_pos hpt, Nat.shiftRight_one, Nat.shiftRight_one] at h
    rw [beq_iff_eq] at hps hpt
    have := hxor_cancel _ _ h
    omega
  · rw [if_pos hps, if_neg hpt, Nat.shiftRight_one, Nat.shiftRight_one] at h
    exfalso
    have hbit := hxbit (s / 2) (by omega)
    rw [h] at hbit
    rw [Nat.testBit_eq_false_of_lt (by norm_num; omega)] at hbit
    cases hbit
  · rw [if_neg hps, if_pos hpt, Nat.shiftRight_one, Nat.shiftRight_one] at h
    exfalso
    have hbit := hxbit (t / 2) (by omega)
    rw [← h] at hbit
    rw [Nat.testBit_eq_false_of_lt (by norm_num; omega)] at hbit
    cases hbit
  · rw [if_neg hps, if_neg hpt, Nat.shiftRight_one, Nat.shiftRight_one] at h
    rw [beq_iff_eq] at hps hpt
    omega

theorem crc_rounds_lt (n : Nat) (s : Nat) (hs : s < 65536) :
    (List.range n).foldl (fun c _ => crc_round c) s < 65536 := by
  apply foldl_invariant _ _ (fun c => c < 65536)
  · intro c _ _ hc
    exact crc_round_lt c hc
  · exact hs

theorem crc_rounds_inj (n : Nat) :
    ∀ s t : Nat, s < 65536 → t < 65536 →
      (List.range n).foldl (fun c _ => crc_round c) s =
        (List.range n).foldl (fun c _ => crc_round c) t → s = t := by
  induction n with
  | zero => intro s t _ _ h; exact h
  | succ n ih =>
    intro s t hs ht h
    rw [List.range_succ, List.foldl_append, List.foldl_append,
      List.foldl_cons, List.foldl_cons, List.foldl_nil, List.foldl_nil] at h
    exact ih s t hs ht
      (crc_round_inj _ _ (crc_rounds_lt n s hs) (crc_rounds_lt n t ht) h)

theorem crc_byte_lt (s b : Nat) (hs : s < 65536) (hb : b < 256) :
    crc_byte s b < 65536 := by
  unfold crc_byte
  exact crc_rounds_lt 8 _ (lt_of_lt_of_eq
    (Nat.xor_lt_two_pow (n := 16) (by norm_num; omega) (by norm_num; omega)) (by norm_num))

theorem crc_byte_inj_state (b : Nat) (s t : Nat) (hs : s < 65536) (ht : t < 65536)
    (hb : b < 256) (h : crc_byte s b = crc_byte t b) : s = t := by
  unfold crc_byte at h
  have hsb : s ^^^ b < 65536 := lt_of_lt_of_eq
    (Nat.xor_lt_two_pow (n := 16) (by norm_num; omega) (by norm_num; omega)) (by norm_num)
  have htb : t ^^^ b < 65536 := lt_of_lt_of_eq
    (Nat.xor_lt_two_pow (n := 16) (by norm_num; omega) (by norm_num; omega)) (by norm_num)
  have hx := crc_rounds_inj 8 _ _ hsb htb h
  have := congrArg (fun z => z ^^^ b) hx
  simpa [Nat.xor_assoc] using this

theorem crc_byte_inj_byte (s b b' : Nat) (hs : s < 65536) (hb : b < 256) (hb' : b' < 256)
    (hne : b ≠ b') : crc_byte s b ≠ crc_byte s b' := by
  intro h
  unfold crc_byte at h
  have hsb : s ^^^ b < 65536 := lt_of_lt_of_eq
    (Nat.xor_lt_two_pow (n := 16) (by norm_num; omega) (by norm_num; omega)) (by norm_num)
  have hsb' : s ^^^ b' < 65536 := lt_of_lt_of_eq
    (Nat.xor_lt_two_pow (n := 16) (by norm_num; omega) (by norm_num; omega)) (by norm_num)
  have hx := crc_rounds_inj 8 _ _ hsb hsb' h
  have := congrArg (fun z => s ^^^ z) hx
  simp only [← Nat.xor_assoc, Nat.xor_self, Nat.zero_xor] at this
  exact hne this

theorem crc_fold_lt (l : List Nat) (hl : ∀ x ∈ l, x < 256) (s : Nat) (hs : s < 65536) :
    l.foldl crc_byte s < 65536 := by
  apply foldl_invariant _ _ (fun c => c < 65536)
  · intro c b hb hc
    exact crc_byte_lt c b hc (hl b hb)
  · exact hs

theorem crc_fold_inj (l : List Nat) (hl : ∀ x ∈ l, x < 256) :
    ∀ s t : Nat, s < 65536 → t < 65536 → s ≠ t →
      l.foldl crc_byte s ≠ l.foldl crc_byte t := by
  induction l with
  | nil => intro s t _ _ hne h; exact hne h
  | cons b r ih =>
    intro s t hs ht hne h
    rw [List.foldl_cons, List.foldl_cons] at h
    have hb := hl b (List.mem_cons_self _ _)
    refine ih (fun x hx => hl x (List.mem_cons_of_mem _ hx)) _ _
      (crc_byte_lt s b hs hb) (crc_byte_lt t b ht hb) ?_ h
    intro heq
    exact hne (crc_byte_inj_state b s t hs ht hb heq)

/-- C8 (amended): the CRC of the standard Modbus test frame is the integer
0xCDC5, whose little-endian serialization — as appended by `_send_message` —
is the byte pair (0xC5, 0xCD); the frame with those bytes appended validates
(CRC over the whole message is 0); and corrupting any single byte of a
validating frame makes validation fail. -/
theorem c8_amended :
    crc16_modbus [0x01, 0x03, 0x00, 0x00, 0x00, 0x0A] = 0xCDC5 ∧
    0xCDC5 &&& 0xFF = 0xC5 ∧ (0xCDC5 >>> 8) &&& 0xFF = 0xCD ∧
    crc16_modbus [0x01, 0x03, 0x00, 0x00, 0x00, 0x0A, 0xC5, 0xCD] = 0 ∧
    (∀ msg : List Nat, (∀ x ∈ msg, x < 256) → crc16_modbus msg = 0 →
      ∀ i < msg.length, ∀ b < 256, b ≠ msg.getD i 0 →
        crc16_modbus (msg.set i b) ≠ 0) := by
  refine ⟨by decide, by decide, by decide, by decide, ?_⟩
  intro msg hbytes hvalid i hi b hb hne
  have hmask : ∀ x : Nat, x &&& 0xFFFF = x % 65536 := by
    intro x
    have := Nat.and_pow_two_sub_one_eq_mod x 16
    norm_num at this
    exact this
  have hFmsg : msg.foldl crc_byte 0xFFFF < 65536 :=
    crc_fold_lt msg hbytes _ (by norm_num)
  have hvalid' : msg.foldl crc_byte 0xFFFF = 0 := by
    unfold crc16_modbus at hvalid
    rw [hmask] at hvalid
    omega
  have hset_bytes : ∀ x ∈ msg.set i b, x < 256 := by
    intro x hx
    rcases List.mem_or_eq_of_mem_set hx with h | rfl
    · exact hbytes x h
    · exact hb
  have hFset : (msg.set i b).foldl crc_byte 0xFFFF < 65536 :=
    crc_fold_lt _ hset_bytes _ (by norm_num)
  unfold crc16_modbus
  rw [hmask]
  intro hzero
  have hFset0 : (msg.set i b).foldl crc_byte 0xFFFF = 0 := by omega
  -- decompose the two messages around position i
  have hdecomp : msg = msg.take i ++ msg.getD i 0 :: msg.drop (i + 1) := by
    conv_lhs => rw [← List.take_append_drop i msg]
    congr 1
    rw [List.getD_eq_getElem msg 0 hi]
    exact List.drop_eq_getElem_cons hi
  have hset : msg.set i b = msg.take i ++ b :: msg.drop (i + 1) :=
    List.set_eq_take_cons_drop b hi
  have htake_bytes : ∀ x ∈ msg.take i, x < 256 :=
    fun x hx => hbytes x (List.take_subset i msg hx)
  have hdrop_bytes : ∀ x ∈ msg.drop (i + 1), x < 256 :=
    fun x hx => hbytes x (List.drop_subset (i + 1) msg hx)
  have hs1 : (msg.take i).foldl crc_byte 0xFFFF < 65536 :=
    crc_fold_lt _ htake_bytes _ (by norm_num)
  have hdi : msg.getD i 0 < 256 := by
    have : msg.getD i 0 ∈ msg := by
      rw [List.getD_eq_getElem msg 0 hi]
      exact List.getElem_mem _
    exact hbytes _ this
  have hmain : (msg.set i b).foldl crc_byte 0xFFFF ≠ msg.foldl crc_byte 0xFFFF := by
    rw [hset]
    conv_rhs => rw [hdecomp]
    rw [List.foldl_append, List.foldl_append, List.foldl_cons, List.foldl_cons]
    apply crc_fold_inj _ hdrop_bytes _ _
      (crc_byte_lt _ _ hs1 hb) (crc_byte_lt _ _ hs1 hdi)
    exact crc_byte_inj_byte _ _ _ hs1 hb hdi hne
  rw [hvalid', hFset0] at hmain
  exact hmain rfl

/-- Witness for C8: corrupting byte 0 of the validating Modbus test frame
fails validation. -/
theorem c8_amended_witness :
    crc16_modbus (([0x01, 0x03, 0x00, 0x00, 0x00, 0x0A, 0xC5, 0xCD] : List Nat).set 0 2) ≠ 0 :=
  c8_amended.2.2.2.2 [0x01, 0x03, 0x00, 0x00, 0x00, 0x0A, 0xC5, 0xCD]
    (by decide) (by decide) 0 (by decide) 2 (by decide) (by decide)

/-- C8 counterexample: `_crc16_modbus` maps the standard test frame to the
integer 0xCDC5, not 0xC5CD — the claimed value is the byte-swapped (wire
order) rendering. -/
theorem c8_counterexample :
    crc16_modbus [0x01, 0x03, 0x00, 0x00, 0x00, 0x0A] ≠ 0xC5CD := by
  decide

/-! ## Claim C1: facelet round trip.  Part 1: validity of reachable cubes -/

theorem bd_corner_and (x o : Nat) (hx : x < 24) (ho : o < 3) :
    ((x &&& 7) ||| (o <<< 3)) &&& 7 = x &&& 7 :=
  (by decide : ∀ x < 24, ∀ o < 3, ((x &&& 7) ||| (o <<< 3)) &&& 7 = x &&& 7) x hx o ho

theorem bd_corner_lt (x o : Nat) (hx : x < 24) (ho : o < 3) :
    ((x &&& 7) ||| (o <<< 3)) < 24 :=
  (by decide : ∀ x < 24, ∀ o < 3, ((x &&& 7) ||| (o <<< 3)) < 24) x hx o ho

theorem bd_and7_lt (x : Nat) (hx : x < 24) : x &&& 7 < 8 :=
  (by decide : ∀ x < 24, x &&& 7 < 8) x hx

theorem bd_shr3_lt (x : Nat) (hx : x < 24) : x >>> 3 < 3 :=
  (by decide : ∀ x < 24, x >>> 3 < 3) x hx

theorem bd_edge_shr (y e : Nat) (hy : y < 24) (he : e < 2) :
    (y ^^^ e) >>> 1 = y >>> 1 :=
  (by decide : ∀ y < 24, ∀ e < 2, (y ^^^ e) >>> 1 = y >>> 1) y hy e he

theorem bd_edge_lt (y e : Nat) (hy : y < 24) (he : e < 2) : (y ^^^ e) < 24 :=
  (by decide : ∀ y < 24, ∀ e < 2, (y ^^^ e) < 24) y hy e he

theorem bd_and1_lt (y : Nat) (hy : y < 24) : y &&& 1 < 2 :=
  (by decide : ∀ y < 24, y &&& 1 < 2) y hy

theorem bd_shr1_lt (y : Nat) (hy : y < 24) : y >>> 1 < 12 :=
  (by decide : ∀ y < 24, y >>> 1 < 12) y hy

theorem perm_comp (n : Nat) (g h : Nat → Nat)
    (hg : ((List.range n).map g).Perm (List.range n))
    (hh : ((List.range n).map h).Perm (List.range n)) :
    ((List.range n).map fun i => g (h i)).Perm (List.range n) := by
  have heq : (List.range n).map (fun i => g (h i)) = ((List.range n).map h).map g := by
    rw [List.map_map]
    rfl
  rw [heq]
  exact (hh.map g).trans hg

theorem valid_mk0 : ValidCube CubieCube.mk0 := by decide

theorem valid_moves : ∀ k < 18, ValidCube (move_cube.getD k CubieCube.mk0) := by decide

theorem valid_mult (a b : CubieCube) (ha : ValidCube a) (hb : ValidCube b) :
    ValidCube (cube_mult a b) := by
  obtain ⟨hca, hea, hcb, heb, hcp, hep⟩ := ha
  obtain ⟨hca2, hea2, hcb2, heb2, hcp2, hep2⟩ := hb
  have hcorn_val : ∀ i < 8, (corn_mult a b).getD i 0 =
      (a.ca.getD ((b.ca.getD i 0) &&& 7) 0 &&& 7) |||
      ((((a.ca.getD ((b.ca.getD i 0) &&& 7) 0) >>> 3 + (b.ca.getD i 0) >>> 3) % 3) <<< 3) := by
    intro i hi
    unfold corn_mult
    rw [getD_map_range 8 i _ 0 hi]
  have hedge_val : ∀ i < 12, (edge_mult a b).getD i 0 =
      (a.ea.getD ((b.ea.getD i 0) >>> 1) 0) ^^^ ((b.ea.getD i 0) &&& 1) := by
    intro i hi
    unfold edge_mult
    rw [getD_map_range 12 i _ 0 hi]
  have hcbound : ∀ i < 8, (corn_mult a b).getD i 0 < 24 := by
    intro i hi
    rw [hcorn_val i hi]
    exact bd_corner_lt _ _ (hcb _ (bd_and7_lt _ (hcb2 i hi))) (Nat.mod_lt _ (by omega))
  have hebound : ∀ i < 12, (edge_mult a b).getD i 0 < 24 := by
    intro i hi
    rw [hedge_val i hi]
    exact bd_edge_lt _ _ (heb _ (bd_shr1_lt _ (heb2 i hi))) (bd_and1_lt _ (heb2 i hi))
  refine ⟨by simp [cube_mult, corn_mult], by simp [cube_mult, edge_mult], hcbound, hebound,
    ?_, ?_⟩
  · have heqmap : (List.range 8).map (caperm (cube_mult a b)) =
        (List.range 8).map fun i => caperm a (caperm b i) := by
      apply List.map_congr_left
      intro i hi
      have hi8 := List.mem_range.1 hi
      show (corn_mult a b).getD i 0 &&& 7 = caperm a (caperm b i)
      rw [hcorn_val i hi8, bd_corner_and _ _ (hcb _ (bd_and7_lt _ (hcb2 i hi8)))
        (Nat.mod_lt _ (by omega))]
      rfl
    rw [heqmap]
    exact perm_comp 8 (caperm a) (caperm b) hcp hcp2
  · have heqmap : (List.range 12).map (eaperm (cube_mult a b)) =
        (List.range 12).map fun i => eaperm a (eaperm b i) := by
      apply List.map_congr_left
      intro i hi
      have hi12 := List.mem_range.1 hi
      show (edge_mult a b).getD i 0 >>> 1 = eaperm a (eaperm b i)
      rw [hedge_val i hi12, bd_edge_shr _ _ (heb _ (bd_shr1_lt _ (heb2 i hi12)))
        (bd_and1_lt _ (heb2 i hi12))]
      rfl
    rw [heqmap]
    exact perm_comp 12 (eaperm a) (eaperm b) hep hep2

theorem valid_reach (ms : List Nat) (h : ∀ m ∈ ms, m < 18) : ValidCube (reach ms) := by
  unfold reach
  suffices hgen : ∀ l : List Nat, (∀ m ∈ l, m < 18) → ∀ c : CubieCube, ValidCube c →
      ValidCube (l.foldl apply_move_index c) by
    exact hgen ms h CubieCube.mk0 valid_mk0
  intro l
  induction l with
  | nil => intro _ c hc; exact hc
  | cons m t ih =>
    intro hl c hc
    rw [List.foldl_cons]
    exact ih (fun x hx => hl x (List.mem_cons_of_mem _ hx)) _
      (valid_mult _ _ hc (valid_moves m (hl m (List.mem_cons_self _ _))))

/-! C1 part 2: reading `to_perm` at table positions for a valid cube -/

theorem arith_c1 (m o : Nat) (hm : m < 3) (ho : o < 3) :
    (((m + 3 - o) % 3) + o) % 3 = m :=
  (by decide : ∀ m < 3, ∀ o < 3, (((m + 3 - o) % 3) + o) % 3 = m) m hm o ho

theorem arith_c2 (n o m : Nat) (hn : n < 3) (ho : o < 3) (hm : m < 3)
    (h : (n + o) % 3 = m) : n = (m + 3 - o) % 3 :=
  (by decide : ∀ n < 3, ∀ o < 3, ∀ m < 3, (n + o) % 3 = m → n = (m + 3 - o) % 3)
    n hn o ho m hm h

theorem arith_e1 (m o : Nat) (hm : m < 2) (ho : o < 2) :
    (((m + o) % 2) + o) % 2 = m :=
  (by decide : ∀ m < 2, ∀ o < 2, (((m + o) % 2) + o) % 2 = m) m hm o ho

theorem arith_e2 (n o m : Nat) (hn : n < 2) (ho : o < 2) (hm : m < 2)
    (h : (n + o) % 2 = m) : n = (m + o) % 2 :=
  (by decide : ∀ n < 2, ∀ o < 2, ∀ m < 2, (n + o) % 2 = m → n = (m + o) % 2)
    n hn o ho m hm h

theorem cf_inj (a b a' b' : Nat) (ha : a < 8) (hb : b < 3) (ha' : a' < 8) (hb' : b' < 3)
    (h : cf a b = cf a' b') : a = a' ∧ b = b' := by
  have hd : ∀ a < 8, ∀ b < 3, ∀ a' < 8, ∀ b' < 3,
      cf a b ≠ cf a' b' ∨ (a = a' ∧ b = b') := by decide
  rcases hd a ha b hb a' ha' b' hb' with hne | hco
  · exact absurd h hne
  · exact hco

theorem ef_inj (a b a' b' : Nat) (ha : a < 12) (hb : b < 2) (ha' : a' < 12) (hb' : b' < 2)
    (h : ef a b = ef a' b') : a = a' ∧ b = b' := by
  have hd : ∀ a < 12, ∀ b < 2, ∀ a' < 12, ∀ b' < 2,
      ef a b ≠ ef a' b' ∨ (a = a' ∧ b = b') := by decide
  rcases hd a ha b hb a' ha' b' hb' with hne | hco
  · exact absurd h hne
  · exact hco

theorem cf_ne_ef (a b e k : Nat) (ha : a < 8) (hb : b < 3) (he : e < 12) (hk : k < 2) :
    cf a b ≠ ef e k :=
  (by decide : ∀ a < 8, ∀ b < 3, ∀ e < 12, ∀ k < 2, cf a b ≠ ef e k) a ha b hb e he k hk

theorem cf_lt_54 (a b : Nat) (ha : a < 8) (hb : b < 3) : cf a b < 54 :=
  (by decide : ∀ a < 8, ∀ b < 3, cf a b < 54) a ha b hb

theorem ef_lt_54 (a b : Nat) (ha : a < 12) (hb : b < 2) : ef a b < 54 :=
  (by decide : ∀ a < 12, ∀ b < 2, ef a b < 54) a ha b hb

theorem to_perm_corner (c : CubieCube) (hc : ValidCube c) (i m : Nat)
    (hi : i < 8) (hm : m < 3) :
    (to_perm c).getD (cf i m) 0 = cf (caperm c i) ((m + 3 - caori c i) % 3) := by
  obtain ⟨hca, hea, hcb, heb, hcp, hep⟩ := hc
  have hori : caori c i < 3 := bd_shr3_lt _ (hcb i hi)
  unfold to_perm
  apply foldl_set_getD_of_mem
  · rw [List.length_range]
    exact cf_lt_54 i m hi hm
  · apply List.mem_append_left
    simp only [corner_writes, List.mem_flatMap, List.mem_range, List.mem_map]
    refine ⟨i, hi, (m + 3 - caori c i) % 3, Nat.mod_lt _ (by omega), ?_⟩
    rw [show (((m + 3 - caori c i) % 3) + (c.ca.getD i 0) >>> 3) % 3 = m from
      arith_c1 m (caori c i) hm hori]
    rfl
  · intro w hw hkey
    rcases List.mem_append.1 hw with hcw | hew
    · simp only [corner_writes, List.mem_flatMap, List.mem_range, List.mem_map] at hcw
      obtain ⟨cn, hcn, n, hn, rfl⟩ := hcw
      simp only at hkey ⊢
      have hinj := cf_inj cn ((n + (c.ca.getD cn 0) >>> 3) % 3) i m hcn
        (Nat.mod_lt _ (by omega)) hi hm hkey
      have hcni : cn = i := hinj.1
      subst hcni
      rw [arith_c2 n (caori c cn) m hn hori hm hinj.2]
      rfl
    · simp only [edge_writes, List.mem_flatMap, List.mem_range, List.mem_map] at hew
      obtain ⟨e, he, n, hn, rfl⟩ := hew
      simp only at hkey
      exact absurd hkey.symm (cf_ne_ef i m e ((n + (c.ea.getD e 0 &&& 1)) % 2) hi hm he
        (Nat.mod_lt _ (by omega)))

theorem to_perm_edge (c : CubieCube) (hc : ValidCube c) (i m : Nat)
    (hi : i < 12) (hm : m < 2) :
    (to_perm c).getD (ef i m) 0 = ef (eaperm c i) ((m + eaori c i) % 2) := by
  obtain ⟨hca, hea, hcb, heb, hcp, hep⟩ := hc
  have hori : eaori c i < 2 := bd_and1_lt _ (heb i hi)
  unfold to_perm
  apply foldl_set_getD_of_mem
  · rw [List.length_range]
    exact ef_lt_54 i m hi hm
  · apply List.mem_append_right
    simp only [edge_writes, List.mem_flatMap, List.mem_range, List.mem_map]
    refine ⟨i, hi, (m + eaori c i) % 2, Nat.mod_lt _ (by omega), ?_⟩
    rw [show (((m + eaori c i) % 2) + (c.ea.getD i 0 &&& 1)) % 2 = m from
      arith_e1 m (eaori c i) hm hori]
    rfl
  · intro w hw hkey
    rcases List.mem_append.1 hw with hcw | hew
    · simp only [corner_writes, List.mem_flatMap, List.mem_range, List.mem_map] at hcw
      obtain ⟨cn, hcn, n, hn, rfl⟩ := hcw
      simp only at hkey
      exact absurd hkey (cf_ne_ef cn ((n + (c.ca.getD cn 0) >>> 3) % 3) i m hcn
        (Nat.mod_lt _ (by omega)) hi hm)
    · simp only [edge_writes, List.mem_flatMap, List.mem_range, List.mem_map] at hew
      obtain ⟨e, he, n, hn, rfl⟩ := hew
      simp only at hkey ⊢
      have hinj := ef_inj e ((n + (c.ea.getD e 0 &&& 1)) % 2) i m he
        (Nat.mod_lt _ (by omega)) hi hm hkey
      have hei : e = i := hinj.1
      subst hei
      rw [arith_e2 n (eaori c e) m hn hori hm hinj.2]
      rfl
/-! C1 part 3: the color scan of `from_facelet` on `to_facelet c` -/

theorem to_facelet_getD (c : CubieCube) (p : Nat) (hp : p < 54) :
    (to_facelet c).getD p ' ' = face_chars.getD ((to_perm c).getD p 0 / 9) '?' := by
  unfold to_facelet
  exact getD_map_lt _ _ p ' ' 0 (by rw [to_perm_length]; exact hp)

theorem centers_eq (c : CubieCube) :
    [(to_facelet c).getD 4 ' ', (to_facelet c).getD 13 ' ', (to_facelet c).getD 22 ' ',
     (to_facelet c).getD 31 ' ', (to_facelet c).getD 40 ' ', (to_facelet c).getD 49 ' '] =
    face_chars := by
  rw [to_facelet_getD c 4 (by omega), to_facelet_getD c 13 (by omega),
    to_facelet_getD c 22 (by omega), to_facelet_getD c 31 (by omega),
    to_facelet_getD c 40 (by omega), to_facelet_getD c 49 (by omega),
    to_perm_center c 4 (by decide), to_perm_center c 13 (by decide),
    to_perm_center c 22 (by decide), to_perm_center c 31 (by decide),
    to_perm_center c 40 (by decide), to_perm_center c 49 (by decide)]
  rfl

theorem to_perm_getD_lt (c : CubieCube) (i : Nat) (hi : i < 54) :
    (to_perm c).getD i 0 < 54 := by
  apply to_perm_values
  rw [List.getD_eq_getElem _ 0 (by rw [to_perm_length]; exact hi)]
  exact List.getElem_mem _

theorem face_chars_findIdx (k : Nat) (hk : k < 6) :
    face_chars.findIdx? (fun ch => ch == face_chars.getD k '?') = some k :=
  (by decide : ∀ k < 6,
    face_chars.findIdx? (fun ch => ch == face_chars.getD k '?') = some k) k hk

theorem facelet_colors_eq (centers facelet : List Char) (g : Nat → Nat)
    (h : ∀ i < 54, centers.findIdx? (fun ch => ch == facelet.getD i ' ') = some (g i)) :
    facelet_colors centers facelet =
      some ((List.range 54).map g,
        (((List.range 54).map g).map fun k => 1 <<< (k <<< 2)).sum) := by
  unfold facelet_colors
  suffices haux : ∀ n, n ≤ 54 →
      (List.range n).foldl
        (fun acc i =>
          acc.bind fun fc =>
            match centers.findIdx? (fun ch => ch == facelet.getD i ' ') with
            | none => none
            | some idx => some (fc.1 ++ [idx], fc.2 + (1 <<< (idx <<< 2))))
        (some ([], 0)) =
      some ((List.range n).map g,
        (((List.range n).map g).map fun k => 1 <<< (k <<< 2)).sum) by
    exact haux 54 (by omega)
  intro n
  induction n with
  | zero => intro _; rfl
  | succ n ih =>
    intro hn
    rw [List.range_succ, List.foldl_append, ih (by omega), List.foldl_cons, List.foldl_nil]
    rw [List.map_append, List.map_append, List.sum_append]
    rw [h n (by omega)]
    rfl

theorem sum_map_flatMap {α β : Type} (l : List α) (f : α → List β) (F : β → Nat) :
    ((l.flatMap f).map F).sum = (l.map fun a => ((f a).map F).sum).sum := by
  induction l with
  | nil => rfl
  | cons a t ih =>
    rw [List.flatMap_cons, List.map_append, List.sum_append, ih, List.map_cons,
      List.sum_cons]

theorem reindex3 (o : Nat) (ho : o < 3) :
    ((List.range 3).map fun m => (m + 3 - o) % 3).Perm (List.range 3) := by
  have h3 : o = 0 ∨ o = 1 ∨ o = 2 := by omega
  rcases h3 with rfl | rfl | rfl <;> decide

theorem reindex2 (o : Nat) (ho : o < 2) :
    ((List.range 2).map fun m => (m + o) % 2).Perm (List.range 2) := by
  have h2 : o = 0 ∨ o = 1 := by omega
  rcases h2 with rfl | rfl <;> decide

theorem caperm_lt (c : CubieCube) (hc : ValidCube c) (i : Nat) (hi : i < 8) :
    caperm c i < 8 := by
  have hmem : caperm c i ∈ (List.range 8).map (caperm c) :=
    List.mem_map_of_mem _ (List.mem_range.2 hi)
  exact List.mem_range.1 (hc.2.2.2.2.1.mem_iff.1 hmem)

theorem eaperm_lt (c : CubieCube) (hc : ValidCube c) (i : Nat) (hi : i < 12) :
    eaperm c i < 12 := by
  have hmem : eaperm c i ∈ (List.range 12).map (eaperm c) :=
    List.mem_map_of_mem _ (List.mem_range.2 hi)
  exact List.mem_range.1 (hc.2.2.2.2.2.mem_iff.1 hmem)

theorem sum_reindex_perm (l l' : List Nat) (hp : l.Perm l') (F : Nat → Nat) :
    (l.map F).sum = (l'.map F).sum :=
  (hp.map F).sum_eq

theorem count_value (c : CubieCube) (hc : ValidCube c) :
    ((List.range 54).map fun i => 1 <<< ((((to_perm c).getD i 0 / 9)) <<< 2)).sum =
      0x999999 := by
  have hperm : (cpos_list ++ epos_list ++ ct_facelet).Perm (List.range 54) := by decide
  rw [← sum_reindex_perm _ _ hperm]
  rw [List.append_assoc, List.map_append, List.sum_append, List.map_append, List.sum_append]
  have hcorner : ((cpos_list.map fun p => 1 <<< (((to_perm c).getD p 0 / 9) <<< 2))).sum =
      0x444444 := by
    unfold cpos_list
    rw [sum_map_flatMap]
    have hinner : ∀ i ∈ List.range 8,
        ((((List.range 3).map (cf i)).map fun p => 1 <<< (((to_perm c).getD p 0 / 9) <<< 2))).sum =
        (((List.range 3).map fun n => 1 <<< ((cf (caperm c i) n / 9) <<< 2))).sum := by
      intro i hi
      have hi8 := List.mem_range.1 hi
      have hori : caori c i < 3 := bd_shr3_lt _ (hc.2.2.1 i hi8)
      rw [List.map_map]
      have hmapeq : (List.range 3).map ((fun p => 1 <<< (((to_perm c).getD p 0 / 9) <<< 2)) ∘ cf i) =
          (List.range 3).map fun m => 1 <<< ((cf (caperm c i) ((m + 3 - caori c i) % 3) / 9) <<< 2) := by
        apply List.map_congr_left
        intro m hm
        have hm3 := List.mem_range.1 hm
        show 1 <<< (((to_perm c).getD (cf i m) 0 / 9) <<< 2) = _
        rw [to_perm_corner c hc i m hi8 hm3]
      rw [hmapeq]
      have hshift : (List.range 3).map
          (fun m => 1 <<< ((cf (caperm c i) ((m + 3 - caori c i) % 3) / 9) <<< 2)) =
          ((List.range 3).map fun m => (m + 3 - caori c i) % 3).map
            fun n => 1 <<< ((cf (caperm c i) n / 9) <<< 2) := by
        rw [List.map_map]
        rfl
      rw [hshift]
      exact sum_reindex_perm _ _ (reindex3 _ hori) _
    rw [List.map_congr_left hinner]
    have houter : (List.range 8).map
        (fun i => (((List.range 3).map fun n => 1 <<< ((cf (caperm c i) n / 9) <<< 2))).sum) =
        ((List.range 8).map (caperm c)).map
          fun j => (((List.range 3).map fun n => 1 <<< ((cf j n / 9) <<< 2))).sum := by
      rw [List.map_map]
      rfl
    rw [houter, sum_reindex_perm _ _ hc.2.2.2.2.1 _]
    decide
  have hedge : ((epos_list.map fun p => 1 <<< (((to_perm c).getD p 0 / 9) <<< 2))).sum =
      0x444444 := by
    unfold epos_list
    rw [sum_map_flatMap]
    have hinner : ∀ i ∈ List.range 12,
        ((((List.range 2).map (ef i)).map fun p => 1 <<< (((to_perm c).getD p 0 / 9) <<< 2))).sum =
        (((List.range 2).map fun n => 1 <<< ((ef (eaperm c i) n / 9) <<< 2))).sum := by
      intro i hi
      have hi12 := List.mem_range.1 hi
      have hori : eaori c i < 2 := bd_and1_lt _ (hc.2.2.2.1 i hi12)
      rw [List.map_map]
      have hmapeq : (List.range 2).map ((fun p => 1 <<< (((to_perm c).getD p 0 / 9) <<< 2)) ∘ ef i) =
          (List.range 2).map fun m => 1 <<< ((ef (eaperm c i) ((m + eaori c i) % 2) / 9) <<< 2) := by
        apply List.map_congr_left
        intro m hm
        have hm2 := List.mem_range.1 hm
        show 1 <<< (((to_perm c).getD (ef i m) 0 / 9) <<< 2) = _
        rw [to_perm_edge c hc i m hi12 hm2]
      rw [hmapeq]
      have hshift : (List.range 2).map
          (fun m => 1 <<< ((ef (eaperm c i) ((m + eaori c i) % 2) / 9) <<< 2)) =
          ((List.range 2).map fun m => (m + eaori c i) % 2).map
            fun n => 1 <<< ((ef (eaperm c i) n / 9) <<< 2) := by
        rw [List.map_map]
        rfl
      rw [hshift]
      exact sum_reindex_perm _ _ (reindex2 _ hori) _
    rw [List.map_congr_left hinner]
    have houter : (List.range 12).map
        (fun i => (((List.range 2).map fun n => 1 <<< ((ef (eaperm c i) n / 9) <<< 2))).sum) =
        ((List.range 12).map (eaperm c)).map
          fun j => (((List.range 2).map fun n => 1 <<< ((ef j n / 9) <<< 2))).sum := by
      rw [List.map_map]
      rfl
    rw [houter, sum_reindex_perm _ _ hc.2.2.2.2.2 _]
    decide
  have hcent : ((ct_facelet.map fun p => 1 <<< (((to_perm c).getD p 0 / 9) <<< 2))).sum =
      0x111111 := by
    have hmapeq : ct_facelet.map (fun p => 1 <<< (((to_perm c).getD p 0 / 9) <<< 2)) =
        ct_facelet.map fun p => 1 <<< ((p / 9) <<< 2) := by
      apply List.map_congr_left
      intro p hp
      rw [to_perm_center c p hp]
    rw [hmapeq]
    decide
  rw [hcorner, hedge, hcent]
  decide

/-! C1 part 4: the decode loops of `from_facelet` recover the cubie arrays -/

theorem fList_corner (c : CubieCube) (hc : ValidCube c) (i m : Nat)
    (hi : i < 8) (hm : m < 3) :
    (fList c).getD (cf i m) 0 = cf (caperm c i) ((m + 3 - caori c i) % 3) / 9 := by
  unfold fList
  rw [getD_map_range 54 (cf i m) _ 0 (cf_lt_54 i m hi hm), to_perm_corner c hc i m hi hm]

theorem fList_edge (c : CubieCube) (hc : ValidCube c) (i m : Nat)
    (hi : i < 12) (hm : m < 2) :
    (fList c).getD (ef i m) 0 = ef (eaperm c i) ((m + eaori c i) % 2) / 9 := by
  unfold fList
  rw [getD_map_range 54 (ef i m) _ 0 (ef_lt_54 i m hi hm), to_perm_edge c hc i m hi hm]

theorem cf_ud (j : Nat) (hj : j < 8) : cf j 0 / 9 = 0 ∨ cf j 0 / 9 = 3 :=
  (by decide : ∀ j < 8, cf j 0 / 9 = 0 ∨ cf j 0 / 9 = 3) j hj

theorem cf_side (j : Nat) (hj : j < 8) :
    (cf j 1 / 9 ≠ 0 ∧ cf j 1 / 9 ≠ 3) ∧ (cf j 2 / 9 ≠ 0 ∧ cf j 2 / 9 ≠ 3) :=
  (by decide : ∀ j < 8, (cf j 1 / 9 ≠ 0 ∧ cf j 1 / 9 ≠ 3) ∧
    (cf j 2 / 9 ≠ 0 ∧ cf j 2 / 9 ≠ 3)) j hj

theorem cf_pair_inj (j j2 : Nat) (hj : j < 8) (hj2 : j2 < 8) :
    j = j2 ∨ ¬(cf j 1 / 9 = cf j2 1 / 9 ∧ cf j 2 / 9 = cf j2 2 / 9) :=
  (by decide : ∀ j < 8, ∀ j2 < 8,
    j = j2 ∨ ¬(cf j 1 / 9 = cf j2 1 / 9 ∧ cf j 2 / 9 = cf j2 2 / 9)) j hj j2 hj2

theorem ef_pair_inj (j j2 : Nat) (hj : j < 12) (hj2 : j2 < 12) :
    j = j2 ∨ ¬(ef j 0 / 9 = ef j2 0 / 9 ∧ ef j 1 / 9 = ef j2 1 / 9) :=
  (by decide : ∀ j < 12, ∀ j2 < 12,
    j = j2 ∨ ¬(ef j 0 / 9 = ef j2 0 / 9 ∧ ef j 1 / 9 = ef j2 1 / 9)) j hj j2 hj2

theorem ef_no_rev (j j2 : Nat) (hj : j < 12) (hj2 : j2 < 12) :
    ¬(ef j 0 / 9 = ef j2 1 / 9 ∧ ef j 1 / 9 = ef j2 0 / 9) :=
  (by decide : ∀ j < 12, ∀ j2 < 12,
    ¬(ef j 0 / 9 = ef j2 1 / 9 ∧ ef j 1 / 9 = ef j2 0 / 9)) j hj j2 hj2

theorem bd24_corner (x : Nat) (hx : x < 24) :
    (x &&& 7) ||| (((x >>> 3) % 3) <<< 3) = x :=
  (by decide : ∀ x < 24, (x &&& 7) ||| (((x >>> 3) % 3) <<< 3) = x) x hx

theorem bd24_edge0 (y : Nat) (hy : y < 24) (h : y &&& 1 = 0) :
    (y >>> 1) <<< 1 = y :=
  (by decide : ∀ y < 24, y &&& 1 = 1 ∨ (y >>> 1) <<< 1 = y) y hy |>.resolve_left
    (by omega)

theorem bd24_edge1 (y : Nat) (hy : y < 24) (h : y &&& 1 = 1) :
    ((y >>> 1) <<< 1) ||| 1 = y :=
  (by decide : ∀ y < 24, y &&& 1 = 0 ∨ ((y >>> 1) <<< 1) ||| 1 = y) y hy |>.resolve_left
    (by omega)

theorem corner_ori_find (c : CubieCube) (hc : ValidCube c) (i : Nat) (hi : i < 8) :
    ((List.range 3).find? fun o =>
      (fList c).getD (cf i o) 0 == 0 || (fList c).getD (cf i o) 0 == 3) =
    some (caori c i) := by
  have hx := hc.2.2.1 i hi
  have hori : caori c i < 3 := bd_shr3_lt _ hx
  have hp : caperm c i < 8 := caperm_lt c hc i hi
  apply find_range_eq 3 _ _ hori
  · rw [fList_corner c hc i _ hi hori]
    have h0 : (caori c i + 3 - caori c i) % 3 = 0 := by omega
    rw [h0]
    rcases cf_ud _ hp with h | h <;> simp [h]
  · intro o ho
    rw [fList_corner c hc i o hi (by omega)]
    have hs := cf_side _ hp
    have hne : (o + 3 - caori c i) % 3 = 1 ∨ (o + 3 - caori c i) % 3 = 2 := by omega
    rcases hne with h | h <;> rw [h] <;>
      simp only [Bool.or_eq_false_iff, beq_eq_false_iff_ne]
    · exact ⟨hs.1.1, hs.1.2⟩
    · exact ⟨hs.2.1, hs.2.2⟩

theorem corner_j_find (c : CubieCube) (hc : ValidCube c) (i : Nat) (hi : i < 8) :
    ((List.range 8).find? fun j =>
      cf (caperm c i) 1 / 9 == cf j 1 / 9 && cf (caperm c i) 2 / 9 == cf j 2 / 9) =
    some (caperm c i) := by
  have hp : caperm c i < 8 := caperm_lt c hc i hi
  apply find_range_eq 8 _ _ hp
  · simp
  · intro j hj
    rw [Bool.eq_false_iff]
    intro hcon
    rw [Bool.and_eq_true, beq_iff_eq, beq_iff_eq] at hcon
    rcases cf_pair_inj (caperm c i) j hp (by omega) with h | h
    · omega
    · exact h hcon

theorem edge_find (c : CubieCube) (hc : ValidCube c) (i : Nat) (hi : i < 12) :
    ((List.range 12).find? fun j =>
      ((fList c).getD (ef i 0) 0 == ef j 0 / 9 && (fList c).getD (ef i 1) 0 == ef j 1 / 9) ||
      ((fList c).getD (ef i 0) 0 == ef j 1 / 9 && (fList c).getD (ef i 1) 0 == ef j 0 / 9)) =
    some (eaperm c i) := by
  have hy := hc.2.2.2.1 i hi
  have he : eaori c i < 2 := bd_and1_lt _ hy
  have hp : eaperm c i < 12 := eaperm_lt c hc i hi
  have h0 := fList_edge c hc i 0 hi (by omega)
  have h1 := fList_edge c hc i 1 hi (by omega)
  have he2 : eaori c i = 0 ∨ eaori c i = 1 := by omega
  rcases he2 with he0 | he1
  · have e0 : (0 + eaori c i) % 2 = 0 := by omega
    have e1 : (1 + eaori c i) % 2 = 1 := by omega
    rw [e0] at h0
    rw [e1] at h1
    apply find_range_eq 12 _ _ hp
    · rw [h0, h1]
      simp
    · intro j hj
      rw [h0, h1, Bool.eq_false_iff]
      intro hcon
      rw [Bool.or_eq_true, Bool.and_eq_true, Bool.and_eq_true,
        beq_iff_eq, beq_iff_eq, beq_iff_eq, beq_iff_eq] at hcon
      rcases hcon with ⟨ha, hb⟩ | ⟨ha, hb⟩
      · rcases ef_pair_inj (eaperm c i) j hp (by omega) with h | h
        · omega
        · exact h ⟨ha, hb⟩
      · exact ef_no_rev (eaperm c i) j hp (by omega) ⟨ha, hb⟩
  · have e0 : (0 + eaori c i) % 2 = 1 := by omega
    have e1 : (1 + eaori c i) % 2 = 0 := by omega
    rw [e0] at h0
    rw [e1] at h1
    apply find_range_eq 12 _ _ hp
    · rw [h0, h1]
      simp
    · intro j hj
      rw [h0, h1, Bool.eq_false_iff]
      intro hcon
      rw [Bool.or_eq_true, Bool.and_eq_true, Bool.and_eq_true,
        beq_iff_eq, beq_iff_eq, beq_iff_eq, beq_iff_eq] at hcon
      rcases hcon with ⟨ha, hb⟩ | ⟨ha, hb⟩
      · exact ef_no_rev j (eaperm c i) (by omega) hp ⟨ha.symm, hb.symm⟩
      · rcases ef_pair_inj (eaperm c i) j hp (by omega) with h | h
        · omega
        · exact h ⟨hb, ha⟩

theorem ext_getD (l1 l2 : List Nat) (h : l1.length = l2.length)
    (hd : ∀ k < l1.length, l1.getD k 0 = l2.getD k 0) : l1 = l2 := by
  apply List.ext_getElem h
  intro k hk1 hk2
  have hk := hd k hk1
  rwa [List.getD_eq_getElem _ 0 hk1, List.getD_eq_getElem _ 0 hk2] at hk

theorem foldl_set_range_eq (n : Nat) (val : Nat → Nat) (l0 : List Nat) (hl : l0.length = n)
    (target : List Nat) (ht : target.length = n) (hv : ∀ i < n, target.getD i 0 = val i) :
    (List.range n).foldl (fun l i => l.set i (val i)) l0 = target := by
  have hmap : (List.range n).foldl (fun l i => l.set i (val i)) l0 =
      ((List.range n).map fun i => (i, val i)).foldl (fun l w => l.set w.1 w.2) l0 := by
    rw [List.foldl_map]
  rw [hmap]
  have hlen : (((List.range n).map fun i => (i, val i)).foldl
      (fun l w => l.set w.1 w.2) l0).length = n := by
    rw [foldl_set_length]
    exact hl
  apply ext_getD _ _ (by rw [hlen, ht])
  intro k hk1
  rw [hlen] at hk1
  have hL : (((List.range n).map fun i => (i, val i)).foldl
      (fun l w => l.set w.1 w.2) l0).getD k 0 = val k := by
    apply foldl_set_getD_of_mem _ _ k (val k) 0 (by rw [hl]; exact hk1)
    · exact List.mem_map_of_mem _ (List.mem_range.2 hk1)
    · intro w hw hw1
      rcases List.mem_map.1 hw with ⟨a, ha, rfl⟩
      simp only at hw1 ⊢
      rw [hw1]
  rw [hL, hv k hk1]

theorem corner_decode_eq (c : CubieCube) (hc : ValidCube c) :
    corner_decode (fList c) CubieCube.mk0.ca = c.ca := by
  unfold corner_decode
  refine Eq.trans (foldl_congr_mem _ _ (fun ca i => ca.set i (c.ca.getD i 0)) _ ?_) ?_
  · intro ca i hmem
    have hi := List.mem_range.1 hmem
    have hx := hc.2.2.1 i hi
    have hori : caori c i < 3 := bd_shr3_lt _ hx
    simp only [corner_ori_find c hc i hi, Option.getD_some]
    rw [fList_corner c hc i ((caori c i + 1) % 3) hi (by omega),
      fList_corner c hc i ((caori c i + 2) % 3) hi (by omega)]
    have e1 : ((caori c i + 1) % 3 + 3 - caori c i) % 3 = 1 := by omega
    have e2 : ((caori c i + 2) % 3 + 3 - caori c i) % 3 = 2 := by omega
    rw [e1, e2, corner_j_find c hc i hi]
    show ca.set i (caperm c i ||| ((caori c i % 3) <<< 3)) = ca.set i (c.ca.getD i 0)
    have hval : caperm c i ||| ((caori c i % 3) <<< 3) = c.ca.getD i 0 :=
      bd24_corner (c.ca.getD i 0) hx
    rw [hval]
  · exact foldl_set_range_eq 8 _ CubieCube.mk0.ca rfl c.ca hc.1 fun i hi => rfl

theorem edge_decode_eq (c : CubieCube) (hc : ValidCube c) :
    edge_decode (fList c) CubieCube.mk0.ea = c.ea := by
  unfold edge_decode
  refine Eq.trans (foldl_congr_mem _ _ (fun ea i => ea.set i (c.ea.getD i 0)) _ ?_) ?_
  · intro ea i hmem
    have hi := List.mem_range.1 hmem
    have hy := hc.2.2.2.1 i hi
    have he : eaori c i < 2 := bd_and1_lt _ hy
    have hp : eaperm c i < 12 := eaperm_lt c hc i hi
    simp only [edge_find c hc i hi]
    have h0 := fList_edge c hc i 0 hi (by omega)
    have h1 := fList_edge c hc i 1 hi (by omega)
    have he2 : eaori c i = 0 ∨ eaori c i = 1 := by omega
    rcases he2 with he0 | he1
    · have e0 : (0 + eaori c i) % 2 = 0 := by omega
      have e1 : (1 + eaori c i) % 2 = 1 := by omega
      rw [e0] at h0
      rw [e1] at h1
      rw [h0, h1, if_pos (by simp)]
      have hval : eaperm c i <<< 1 = c.ea.getD i 0 := by
        have hz : c.ea.getD i 0 &&& 1 = 0 := he0
        exact bd24_edge0 (c.ea.getD i 0) hy hz
      rw [hval]
    · have e0 : (0 + eaori c i) % 2 = 1 := by omega
      have e1 : (1 + eaori c i) % 2 = 0 := by omega
      rw [e0] at h0
      rw [e1] at h1
      rw [h0, h1]
      have hne : ef (eaperm c i) 1 / 9 ≠ ef (eaperm c i) 0 / 9 := by
        intro h
        exact ef_no_rev (eaperm c i) (eaperm c i) hp hp ⟨h.symm, h⟩
      rw [if_neg (by simp only [Bool.and_eq_true, beq_iff_eq]; intro hcon; exact hne hcon.1)]
      have hval : (eaperm c i <<< 1) ||| 1 = c.ea.getD i 0 := by
        have hz : c.ea.getD i 0 &&& 1 = 1 := he1
        exact bd24_edge1 (c.ea.getD i 0) hy hz
      rw [hval]
  · exact foldl_set_range_eq 12 _ CubieCube.mk0.ea rfl c.ea hc.2.1 fun i hi => rfl

theorem from_facelet_eq (c0 : CubieCube) (facelet : List Char) (f : List Nat) (count : Nat)
    (hcolors : facelet_colors [facelet.getD 4 ' ', facelet.getD 13 ' ', facelet.getD 22 ' ',
      facelet.getD 31 ' ', facelet.getD 40 ' ', facelet.getD 49 ' '] facelet =
      some (f, count)) :
    from_facelet c0 facelet =
      if count ≠ 0x999999 then none
      else some ⟨corner_decode f c0.ca, edge_decode f c0.ea⟩ := by
  unfold from_facelet
  rw [hcolors]

theorem from_to_facelet (c : CubieCube) (hc : ValidCube c) :
    from_facelet CubieCube.mk0 (to_facelet c) = some c := by
  have hfind : ∀ i < 54, face_chars.findIdx? (fun ch => ch == (to_facelet c).getD i ' ') =
      some ((to_perm c).getD i 0 / 9) := by
    intro i hi
    rw [to_facelet_getD c i hi]
    have hlt := to_perm_getD_lt c i hi
    exact face_chars_findIdx _ (by omega)
  have hcount : (((List.range 54).map fun i => (to_perm c).getD i 0 / 9).map
      fun k => 1 <<< (k <<< 2)).sum = 0x999999 := by
    rw [List.map_map]
    exact count_value c hc
  have hcolors : facelet_colors [(to_facelet c).getD 4 ' ', (to_facelet c).getD 13 ' ',
      (to_facelet c).getD 22 ' ', (to_facelet c).getD 31 ' ', (to_facelet c).getD 40 ' ',
      (to_facelet c).getD 49 ' '] (to_facelet c) =
      some ((List.range 54).map fun i => (to_perm c).getD i 0 / 9,
        (((List.range 54).map fun i => (to_perm c).getD i 0 / 9).map
          fun k => 1 <<< (k <<< 2)).sum) := by
    rw [centers_eq c]
    exact facelet_colors_eq face_chars (to_facelet c)
      (fun i => (to_perm c).getD i 0 / 9) hfind
  rw [from_facelet_eq CubieCube.mk0 (to_facelet c) _ _ hcolors, hcount,
    if_neg (fun h => h rfl)]
  have h1 : corner_decode ((List.range 54).map fun i => (to_perm c).getD i 0 / 9)
      CubieCube.mk0.ca = c.ca := corner_decode_eq c hc
  have h2 : edge_decode ((List.range 54).map fun i => (to_perm c).getD i 0 / 9)
      CubieCube.mk0.ea = c.ea := edge_decode_eq c hc
  rw [h1, h2]

theorem to_facelet_length (c : CubieCube) : (to_facelet c).length = 54 := by
  unfold to_facelet
  rw [List.length_map, to_perm_length]

/-- C1: for every cube reachable from the solved state by elementary moves,
`from_facelet` succeeds on its `to_facelet` string (which has 54 characters)
and rendering the decoded cube with `to_facelet` again reproduces the same
string. -/
theorem c1_round_trip (ms : List Nat) (hms : ∀ m ∈ ms, m < 18) :
    (to_facelet (reach ms)).length = 54 ∧
    ∃ c2 : CubieCube,
      from_facelet CubieCube.mk0 (to_facelet (reach ms)) = some c2 ∧
      to_facelet c2 = to_facelet (reach ms) :=
  ⟨to_facelet_length _,
   reach ms, from_to_facelet (reach ms) (valid_reach ms hms), rfl⟩

/-- Witness for C1 at the move sequence [U, R]. -/
theorem c1_round_trip_witness :
    (to_facelet (reach [0, 3])).length = 54 ∧
    ∃ c2 : CubieCube,
      from_facelet CubieCube.mk0 (to_facelet (reach [0, 3])) = some c2 ∧
      to_facelet c2 = to_facelet (reach [0, 3]) :=
  c1_round_trip [0, 3] (by decide)

end SmartCube
